import Mathlib

/-!
# Verification of the worksheet row/cell subsystem

Shallow embedding of the spreadsheet library's coordinate codec
(`lib.go`), sheet-grid normalizer and row-zero overlay resolver
(`excelize.go`), merged-cell structural adjuster, streaming row writer
(stream-writer source file) and zip-extraction size ceiling
(`lib.go`/`excelize.go`), together with proofs/refutations of the frozen
claims about them.

Go machine integers are modelled as `Int` (no arithmetic in the claims
approaches 2^63, except the explicit `strconv.Atoi` range check, which is
modelled explicitly).  Fallible Go functions returning `(..., error)` are
modelled with `Except`/`Option`; Go slice-index panics are modelled by
`Option`-valued functions returning `none`.
-/

/-- Error values of the library (defined in a source file not provided;
constructors mirror the `newXxxError`/`ErrXxx` values used by the provided
sources). -/
inductive Err where
  | invalidCellName (cell : String)
  | invalidColumnName (name : String)
  | invalidRowNumber (row : Int)
  | cellNameToCoordinates (cell : String)
  | columnNumber
  | maxRows
  | coordinatesToCellName (col row : Int)
  | parameterInvalid
  | coordinates
  | streamSetColWidth
  | columnWidth
  | maxRowHeight
  | optionsUnzipSizeLimit
  | unzipSizeLimitExceeded (limit : Int)
deriving Repr, DecidableEq

/-- Modelled from the spec: the structural ceilings `MinColumns`,
`MaxColumns` and `TotalRows` (`MaxRows`) are constants of the library whose
defining source file is not provided; the spec fixes
`column ∈ [1, MaxColumns]`, `row ∈ [1, MaxRows]` as the limits of the
external worksheet format, whose fixed values are 16384 columns and
1048576 rows. -/
def MinColumns : Int := 1

/-- Modelled from the spec: maximum column of the external format. -/
def MaxColumns : Int := 16384

/-- Modelled from the spec: maximum row (`MaxRows`) of the external format. -/
def TotalRows : Int := 1048576

/-- The `alpha` predicate inside `SplitCellName`:
`('A' <= r && r <= 'Z') || ('a' <= r && r <= 'z') || (r == 36)`
(36 is `'$'`). -/
def isAlphaOrDollar (c : Char) : Bool :=
  (decide (65 ≤ c.toNat) && decide (c.toNat ≤ 90)) ||
  (decide (97 ≤ c.toNat) && decide (c.toNat ≤ 122)) ||
  decide (c.toNat = 36)

/-- ASCII decimal digit test (`'0'..'9'`), used to model `strconv.Atoi`. -/
def isDigitCh (c : Char) : Bool :=
  decide (48 ≤ c.toNat) && decide (c.toNat ≤ 57)

/-- Value of a list of decimal digit characters, most significant first. -/
def digitsVal (l : List Char) : Nat :=
  l.foldl (fun a c => a * 10 + (c.toNat - 48)) 0

/-- Model of Go `strconv.Atoi`: optional sign, then one or more decimal
digits, with the 64-bit `int` range check (`strconv` returns an error on
overflow). -/
def atoi (s : List Char) : Option Int :=
  match s with
  | [] => none
  | c :: rest =>
    let sd : Int × List Char :=
      if c = '+' then (1, rest)
      else if c = '-' then (-1, rest)
      else (1, c :: rest)
    if sd.2 = [] then none
    else if sd.2.all isDigitCh then
      let v : Int := sd.1 * (digitsVal sd.2 : Int)
      if v < -(2 ^ 63) ∨ (2 ^ 63 - 1 : Int) < v then none else some v
    else none

/-- Model of Go `strconv.Itoa` on non-negative values: decimal digit
characters, most significant first. -/
def itoa (n : Nat) : List Char :=
  if h : n < 10 then [Char.ofNat (n + 48)]
  else itoa (n / 10) ++ [Char.ofNat (n % 10 + 48)]
decreasing_by exact Nat.div_lt_self (by omega) (by omega)

/-- Model of `strings.LastIndexFunc`: index of the last character
satisfying `p`, if any. -/
def lastIndexFunc : List Char → (Char → Bool) → Option Nat
  | [], _ => none
  | c :: rest, p =>
    match lastIndexFunc rest p with
    | some i => some (i + 1)
    | none => if p c then some 0 else none

/-- `SplitCellName` (`lib.go`): splits a cell name into column-name part
(with `$` stripped) and row number.  Succeeds when the first character is
a letter or `$`, the last letter-or-`$` is not the final character, and
the remainder parses via `strconv.Atoi` to a positive integer. -/
def SplitCellName (cell : String) : Except Err (String × Int) :=
  match cell.toList with
  | [] => .error (.invalidCellName cell)
  | c :: _ =>
    -- `strings.IndexFunc(cell, alpha) == 0` iff the first character matches
    if isAlphaOrDollar c then
      match lastIndexFunc cell.toList isAlphaOrDollar with
      | none => .error (.invalidCellName cell)
      | some i =>
        if i + 1 < cell.toList.length then
          let colPart := ((cell.toList.take (i + 1)).filter (fun ch => ch ≠ '$')).asString
          match atoi (cell.toList.drop (i + 1)) with
          | some row =>
            if row > 0 then .ok (colPart, row) else .error (.invalidCellName cell)
          | none => .error (.invalidCellName cell)
        else .error (.invalidCellName cell)
    else .error (.invalidCellName cell)

/-- The digit-decoding loop of `ColumnNameToNumber` (`lib.go`), iterating
from the last character to the first with a running multiplier; `none`
models the invalid-character error. -/
def colNameLoop : List Char → Nat → Nat → Option Nat
  | [], col, _ => some col
  | c :: rest, col, multi =>
    if 65 ≤ c.toNat ∧ c.toNat ≤ 90 then
      colNameLoop rest (col + (c.toNat - 64) * multi) (multi * 26)
    else if 97 ≤ c.toNat ∧ c.toNat ≤ 122 then
      colNameLoop rest (col + (c.toNat - 96) * multi) (multi * 26)
    else none

/-- `ColumnNameToNumber` (`lib.go`): bijective base-26 decode of a column
name, case-insensitive, with emptiness and `MaxColumns` checks. -/
def ColumnNameToNumber (name : String) : Except Err Int :=
  if name.toList.length = 0 then .error (.invalidColumnName name)
  else
    match colNameLoop name.toList.reverse 0 1 with
    | none => .error (.invalidColumnName name)
    | some col =>
      if (col : Int) > MaxColumns then .error .columnNumber else .ok col

/-- The building loop of `ColumnNumberToName` (`lib.go`):
`for num > 0 { col = string(rune((num-1)%26+65)) + col; num = (num-1)/26 }`,
on the character list of the string being built. -/
def colNumLoop (num : Nat) (col : List Char) : List Char :=
  if h : num = 0 then col
  else colNumLoop ((num - 1) / 26) (Char.ofNat ((num - 1) % 26 + 65) :: col)
decreasing_by exact Nat.lt_of_le_of_lt (Nat.div_le_self _ _) (by omega)

/-- `ColumnNumberToName` (`lib.go`): bijective base-26 encode with the
`[MinColumns, MaxColumns]` range check. -/
def ColumnNumberToName (num : Int) : Except Err String :=
  if num < MinColumns ∨ num > MaxColumns then .error .columnNumber
  else .ok (colNumLoop num.toNat []).asString

/-- `CellNameToCoordinates` (`lib.go`): composes `SplitCellName` and
`ColumnNameToNumber`, with the `TotalRows` ceiling. -/
def CellNameToCoordinates (cell : String) : Except Err (Int × Int) :=
  match SplitCellName cell with
  | .error _ => .error (.cellNameToCoordinates cell)
  | .ok (colName, row) =>
    if row > TotalRows then .error .maxRows
    else
      match ColumnNameToNumber colName with
      | .error e => .error e
      | .ok col => .ok (col, row)

/-- `CoordinatesToCellName` (`lib.go`): renders `(col, row)` as a cell
name; `abs` models the variadic absolute-reference flag (its last value in
Go, a single flag here, default `false`). -/
def CoordinatesToCellName (col row : Int) (abs : Bool := false) : Except Err String :=
  if col < 1 ∨ row < 1 then .error (.coordinatesToCellName col row)
  else if row > TotalRows then .error .maxRows
  else
    let sign := if abs then "$" else ""
    match ColumnNumberToName col with
    | .error e => .error e
    | .ok colName => .ok (sign ++ colName ++ sign ++ (itoa row.toNat).asString)

/-! ## Column codec round-trip lemmas -/

theorem toList_asString (l : List Char) : (l.asString).toList = l := rfl

theorem colNumLoop_acc (n : Nat) :
    ∀ col, colNumLoop n col = colNumLoop n [] ++ col := by
  induction n using Nat.strong_induction_on with
  | _ n ih =>
    intro col
    by_cases h : n = 0
    · subst h
      conv_lhs => rw [colNumLoop]
      conv_rhs => rw [colNumLoop]
      simp
    · have hq : (n - 1) / 26 < n :=
        Nat.lt_of_le_of_lt (Nat.div_le_self _ _) (by omega)
      conv_lhs => rw [colNumLoop]
      conv_rhs => rw [colNumLoop]
      simp only [h, dite_false]
      rw [ih _ hq (Char.ofNat ((n - 1) % 26 + 65) :: col),
        ih _ hq (Char.ofNat ((n - 1) % 26 + 65) :: [])]
      simp

theorem char_ofNat_toNat_digit (r : Nat) (h : r < 26) :
    (Char.ofNat (r + 65)).toNat = r + 65 := by
  interval_cases r <;> decide

theorem colNumLoop_upper (n : Nat) :
    ∀ c ∈ colNumLoop n [], 65 ≤ c.toNat ∧ c.toNat ≤ 90 := by
  induction n using Nat.strong_induction_on with
  | _ n ih =>
    intro c hc
    rw [colNumLoop] at hc
    by_cases h : n = 0
    · simp [h] at hc
    · simp only [h, dite_false] at hc
      rw [colNumLoop_acc] at hc
      have hq : (n - 1) / 26 < n :=
        Nat.lt_of_le_of_lt (Nat.div_le_self _ _) (by omega)
      rcases List.mem_append.1 hc with h1 | h1
      · exact ih _ hq c h1
      · have hr : (n - 1) % 26 < 26 := Nat.mod_lt _ (by omega)
        have := char_ofNat_toNat_digit ((n - 1) % 26) hr
        simp at h1
        subst h1
        omega

theorem colNumLoop_ne_nil (n : Nat) (h : n ≠ 0) : colNumLoop n [] ≠ [] := by
  rw [colNumLoop]
  simp only [h, dite_false]
  rw [colNumLoop_acc]
  simp

theorem colNameLoop_colNumLoop (n : Nat) :
    ∀ acc multi, colNameLoop (colNumLoop n []).reverse acc multi
      = some (acc + multi * n) := by
  induction n using Nat.strong_induction_on with
  | _ n ih =>
    intro acc multi
    by_cases h : n = 0
    · subst h
      rw [colNumLoop]
      simp [colNameLoop]
    · have hq : (n - 1) / 26 < n :=
        Nat.lt_of_le_of_lt (Nat.div_le_self _ _) (by omega)
      have hr : (n - 1) % 26 < 26 := Nat.mod_lt _ (by omega)
      have hch := char_ofNat_toNat_digit ((n - 1) % 26) hr
      conv_lhs => rw [colNumLoop]
      simp only [h, dite_false]
      rw [colNumLoop_acc, List.reverse_append]
      simp only [List.reverse_cons, List.reverse_nil, List.nil_append,
        List.singleton_append]
      simp only [colNameLoop, hch]
      rw [if_pos (by omega)]
      rw [ih _ hq]
      have e1 : (n - 1) % 26 + 65 - 64 = (n - 1) % 26 + 1 := by omega
      rw [e1]
      have hdm := Nat.div_add_mod (n - 1) 26
      set q := (n - 1) / 26 with hq1
      set m := (n - 1) % 26 with hm1
      have hn : n = 26 * q + m + 1 := by omega
      rw [hn]
      congr 1
      ring

theorem column_codec_core (n : Nat) (h1 : 1 ≤ n) (h2 : (n : Int) ≤ MaxColumns) :
    ColumnNumberToName n = .ok ((colNumLoop n []).asString) ∧
      ColumnNameToNumber ((colNumLoop n []).asString) = .ok (n : Int) := by
  constructor
  · rw [ColumnNumberToName]
    rw [if_neg]
    · simp
    · rw [MinColumns]
      push_neg
      constructor
      · exact_mod_cast h1
      · exact h2
  · rw [ColumnNameToNumber]
    rw [toList_asString]
    rw [if_neg (by simp [List.length_eq_zero]; exact colNumLoop_ne_nil n (by omega))]
    rw [colNameLoop_colNumLoop n 0 1]
    simp only [Nat.zero_add, Nat.one_mul]
    rw [if_neg (by push_neg; exact h2)]

/-- Decidable equality for `Except`, for evaluating the embedded functions
on concrete inputs. -/
instance {e a : Type} [DecidableEq e] [DecidableEq a] : DecidableEq (Except e a) := fun x y =>
  match x, y with
  | .error u, .error v => decidable_of_iff (u = v) (by simp)
  | .error _, .ok _ => isFalse (by simp)
  | .ok _, .error _ => isFalse (by simp)
  | .ok u, .ok v => decidable_of_iff (u = v) (by simp)

/-! ## Decimal digit round-trip lemmas -/

theorem char_ofNat_toNat_digit10 (r : Nat) (h : r < 10) :
    (Char.ofNat (r + 48)).toNat = r + 48 := by
  interval_cases r <;> decide

theorem itoa_digits (n : Nat) :
    ∀ c ∈ itoa n, 48 ≤ c.toNat ∧ c.toNat ≤ 57 := by
  induction n using Nat.strong_induction_on with
  | _ n ih =>
    intro c hc
    rw [itoa] at hc
    by_cases h : n < 10
    · simp only [h, dite_true, List.mem_singleton] at hc
      subst hc
      have := char_ofNat_toNat_digit10 n h
      omega
    · simp only [h, dite_false, List.mem_append, List.mem_singleton] at hc
      rcases hc with h1 | h1
      · exact ih _ (Nat.div_lt_self (by omega) (by omega)) c h1
      · subst h1
        have := char_ofNat_toNat_digit10 (n % 10) (Nat.mod_lt _ (by omega))
        omega

theorem itoa_ne_nil (n : Nat) : itoa n ≠ [] := by
  rw [itoa]
  by_cases h : n < 10 <;> simp [h]

theorem itoa_foldl (n : Nat) :
    ∀ acc, List.foldl (fun a c => a * 10 + (c.toNat - 48)) acc (itoa n)
      = acc * 10 ^ (itoa n).length + n := by
  induction n using Nat.strong_induction_on with
  | _ n ih =>
    intro acc
    by_cases h : n < 10
    · conv_lhs => rw [itoa]
      conv_rhs => rw [itoa]
      simp only [h, dite_true, List.foldl_cons, List.foldl_nil,
        List.length_singleton]
      have := char_ofNat_toNat_digit10 n h
      omega
    · have hq : n / 10 < n := Nat.div_lt_self (by omega) (by omega)
      conv_lhs => rw [itoa]
      conv_rhs => rw [itoa]
      simp only [h, dite_false, List.foldl_append, List.foldl_cons,
        List.foldl_nil, List.length_append, List.length_singleton]
      rw [ih _ hq acc]
      have hch := char_ofNat_toNat_digit10 (n % 10) (Nat.mod_lt _ (by omega))
      have hdm := Nat.div_add_mod n 10
      have hpow : 10 ^ ((itoa (n / 10)).length + 1)
          = 10 ^ (itoa (n / 10)).length * 10 := by ring
      rw [hpow, hch]
      set L := 10 ^ (itoa (n / 10)).length
      have : (acc * L + n / 10) * 10 + (n % 10 + 48 - 48)
          = acc * (L * 10) + (10 * (n / 10) + n % 10) := by ring_nf; omega
      omega

theorem digitsVal_itoa (n : Nat) : digitsVal (itoa n) = n := by
  have := itoa_foldl n 0
  rw [digitsVal]
  omega

theorem atoi_itoa (n : Nat) (h1 : 1 ≤ n) (h2 : (n : Int) ≤ 2 ^ 63 - 1) :
    atoi (itoa n) = some (n : Int) := by
  obtain ⟨c, rest, hcons⟩ : ∃ c rest, itoa n = c :: rest := by
    cases h : itoa n with
    | nil => exact absurd h (itoa_ne_nil n)
    | cons c rest => exact ⟨c, rest, rfl⟩
  have hcd : 48 ≤ c.toNat ∧ c.toNat ≤ 57 :=
    itoa_digits n c (by rw [hcons]; exact List.mem_cons_self _ _)
  have hplus : c ≠ '+' := by
    intro he
    subst he
    revert hcd
    decide
  have hminus : c ≠ '-' := by
    intro he
    subst he
    revert hcd
    decide
  rw [hcons, atoi]
  simp only [hplus, hminus, if_false]
  rw [if_neg (by simp)]
  rw [if_pos]
  · rw [← hcons]
    simp only [one_mul, digitsVal_itoa]
    rw [if_neg]
    push_neg
    constructor
    · omega
    · exact h2
  · simp only [List.all_eq_true]
    intro x hx
    have := itoa_digits n x (by rw [hcons]; exact hx)
    simp only [isDigitCh, Bool.and_eq_true, decide_eq_true_eq]
    omega

/-! ## `lastIndexFunc` and string helper lemmas -/

theorem asString_append (l1 l2 : List Char) :
    (l1 ++ l2).asString = l1.asString ++ l2.asString := rfl

theorem empty_append_str (s : String) : "" ++ s = s := by
  cases s
  rfl

theorem append_empty_str (s : String) : s ++ "" = s := by
  cases s with
  | mk l =>
    show String.mk (l ++ []) = String.mk l
    simp

theorem lastIndexFunc_none (p : Char → Bool) (ys : List Char)
    (h : ∀ c ∈ ys, p c = false) : lastIndexFunc ys p = none := by
  induction ys with
  | nil => rfl
  | cons c rest ih =>
    rw [lastIndexFunc, ih (fun x hx => h x (List.mem_cons_of_mem _ hx))]
    simp [h c (List.mem_cons_self _ _)]

theorem lastIndexFunc_append_nofalse (p : Char → Bool) (xs ys : List Char)
    (h : ∀ c ∈ ys, p c = false) :
    lastIndexFunc (xs ++ ys) p = lastIndexFunc xs p := by
  induction xs with
  | nil => simpa using lastIndexFunc_none p ys h
  | cons x xs ih =>
    rw [List.cons_append, lastIndexFunc, ih, lastIndexFunc]

theorem lastIndexFunc_concat_true (p : Char → Bool) (xs : List Char) (c : Char)
    (h : p c = true) : lastIndexFunc (xs ++ [c]) p = some xs.length := by
  induction xs with
  | nil => simp [lastIndexFunc, h]
  | cons x xs ih =>
    rw [List.cons_append, lastIndexFunc, ih]
    simp

theorem isAlphaOrDollar_of_upper {c : Char} (h1 : 65 ≤ c.toNat)
    (h2 : c.toNat ≤ 90) : isAlphaOrDollar c = true := by
  simp only [isAlphaOrDollar, Bool.or_eq_true, Bool.and_eq_true,
    decide_eq_true_eq]
  omega

theorem isAlphaOrDollar_of_digit {c : Char} (h1 : 48 ≤ c.toNat)
    (h2 : c.toNat ≤ 57) : isAlphaOrDollar c = false := by
  simp only [isAlphaOrDollar, Bool.or_eq_false_iff, Bool.and_eq_false_iff,
    decide_eq_false_iff_not]
  omega

theorem ne_dollar_of_upper {c : Char} (h1 : 65 ≤ c.toNat) : c ≠ '$' := by
  intro he
  subst he
  revert h1
  decide

/-- A column name built by `colNumLoop` survives `SplitCellName`'s `$`
strip unchanged. -/
theorem filter_dollar_upper (l : List Char)
    (h : ∀ c ∈ l, 65 ≤ c.toNat ∧ c.toNat ≤ 90) :
    l.filter (fun ch => ch ≠ '$') = l := by
  apply List.filter_eq_self.mpr
  intro c hc
  simp only [ne_eq, decide_not, Bool.not_eq_true', decide_eq_false_iff_not]
  exact ne_dollar_of_upper (h c hc).1

/-- Integer-input version of the column-codec round trip. -/
theorem column_codec_int (col : Int) (h1 : 1 ≤ col) (h2 : col ≤ MaxColumns) :
    ColumnNumberToName col = .ok ((colNumLoop col.toNat []).asString) ∧
    ColumnNameToNumber ((colNumLoop col.toNat []).asString) = .ok col := by
  have hcolnat : ((col.toNat : Nat) : Int) = col := Int.toNat_of_nonneg (by omega)
  have hcore := column_codec_core col.toNat (by omega) (by rw [hcolnat]; exact h2)
  rw [hcolnat] at hcore
  exact hcore

/-- Core of the cell-name codec round trip: the rendered name decodes back
to the same coordinates. -/
theorem cell_codec_core (col row : Int)
    (h1 : 1 ≤ col) (h2 : col ≤ MaxColumns) (h3 : 1 ≤ row) (h4 : row ≤ TotalRows) :
    CoordinatesToCellName col row
      = .ok ((colNumLoop col.toNat [] ++ itoa row.toNat).asString) ∧
    CellNameToCoordinates ((colNumLoop col.toNat [] ++ itoa row.toNat).asString)
      = .ok (col, row) := by
  have hTR : TotalRows = 1048576 := rfl
  have hrownat : ((row.toNat : Nat) : Int) = row := Int.toNat_of_nonneg (by omega)
  have hcore := column_codec_int col h1 h2
  have hl1ne : colNumLoop col.toNat [] ≠ [] := colNumLoop_ne_nil _ (by omega)
  have hl1up := colNumLoop_upper col.toNat
  have hl2dig := itoa_digits row.toNat
  have hl2ne : itoa row.toNat ≠ [] := itoa_ne_nil _
  constructor
  · rw [CoordinatesToCellName, if_neg (by omega), if_neg (by omega)]
    simp only [Bool.false_eq_true, if_false]
    rw [hcore.1]
    simp only [empty_append_str, append_empty_str, asString_append]
  · have hs : ((colNumLoop col.toNat [] ++ itoa row.toNat).asString).toList
        = colNumLoop col.toNat [] ++ itoa row.toNat := toList_asString _
    obtain ⟨c, cs, hc1⟩ : ∃ c cs, colNumLoop col.toNat [] = c :: cs := by
      cases h : colNumLoop col.toNat [] with
      | nil => exact absurd h hl1ne
      | cons c cs => exact ⟨c, cs, rfl⟩
    have hsplit : SplitCellName ((colNumLoop col.toNat [] ++ itoa row.toNat).asString)
        = .ok ((colNumLoop col.toNat []).asString, row) := by
      rw [SplitCellName.eq_def]
      simp only [toList_asString, hc1, List.cons_append]
      have hcup := hl1up c (by rw [hc1]; exact List.mem_cons_self _ _)
      rw [if_pos (isAlphaOrDollar_of_upper hcup.1 hcup.2)]
      rw [← List.cons_append, ← hc1]
      obtain ⟨ys, b, hconc⟩ :=
        (List.eq_nil_or_concat (colNumLoop col.toNat [])).resolve_left hl1ne
      rw [List.concat_eq_append] at hconc
      have hbup := hl1up b (by rw [hconc]; simp)
      have hlif : lastIndexFunc (colNumLoop col.toNat [] ++ itoa row.toNat)
          isAlphaOrDollar = some ys.length := by
        rw [lastIndexFunc_append_nofalse _ _ _
          (fun x hx => isAlphaOrDollar_of_digit (hl2dig x hx).1 (hl2dig x hx).2)]
        rw [hconc, lastIndexFunc_concat_true _ _ _
          (isAlphaOrDollar_of_upper hbup.1 hbup.2)]
      simp only [hlif]
      have hlen1 : (colNumLoop col.toNat []).length = ys.length + 1 := by
        rw [hconc]; simp
      have hlen2 : 0 < (itoa row.toNat).length := List.length_pos.mpr hl2ne
      rw [if_pos (by simp only [List.length_append]; omega)]
      have htake : ys.length + 1 = (colNumLoop col.toNat []).length := hlen1.symm
      rw [htake, List.take_left, List.drop_left]
      have hatoi : atoi (itoa row.toNat) = some ((row.toNat : Nat) : Int) :=
        atoi_itoa row.toNat (by omega)
          (by have hp : (2:Int) ^ 63 - 1 = 9223372036854775807 := by norm_num
              omega)
      rw [hrownat] at hatoi
      simp only [hatoi]
      rw [if_pos (by omega)]
      rw [filter_dollar_upper _ hl1up]
    rw [CellNameToCoordinates, hsplit]
    simp only []
    rw [if_neg (by omega), hcore.2]

theorem colNumLoop_one : colNumLoop 1 [] = ['A'] := by
  rw [colNumLoop, dif_neg (by norm_num)]
  norm_num
  rw [colNumLoop, dif_pos rfl]

theorem colNumLoop_37 : colNumLoop 37 [] = ['A', 'K'] := by
  rw [colNumLoop, dif_neg (by norm_num)]
  norm_num
  rw [colNumLoop, dif_neg (by norm_num)]
  norm_num
  rw [colNumLoop, dif_pos rfl]

theorem itoa_one : itoa 1 = ['1'] := by
  rw [itoa, dif_pos (by norm_num)]

/-- **C1**: for every pair `(col, row)` with `1 ≤ col ≤ MaxColumns` and
`1 ≤ row ≤ TotalRows`, `CellNameToCoordinates (CoordinatesToCellName col
row)` returns `(col, row)` with no error; in particular
`CoordinatesToCellName 1 1 = "A1"`, `CoordinatesToCellName 37 1 = "AK1"`,
and `CellNameToCoordinates "AK74" = (37, 74)`. -/
theorem C1_codec_roundtrip :
    (∀ col row : Int, 1 ≤ col → col ≤ MaxColumns → 1 ≤ row → row ≤ TotalRows →
      ∃ cell, CoordinatesToCellName col row = .ok cell ∧
        CellNameToCoordinates cell = .ok (col, row)) ∧
    CoordinatesToCellName 1 1 = .ok "A1" ∧
    CoordinatesToCellName 37 1 = .ok "AK1" ∧
    CellNameToCoordinates "AK74" = .ok (37, 74) := by
  refine ⟨fun col row h1 h2 h3 h4 => ⟨_, (cell_codec_core col row h1 h2 h3 h4).1,
    (cell_codec_core col row h1 h2 h3 h4).2⟩, ?_, ?_, ?_⟩
  · have h := (cell_codec_core 1 1 (by norm_num) (by norm_num [MaxColumns])
      (by norm_num) (by norm_num [TotalRows])).1
    have e1 : (1 : Int).toNat = 1 := rfl
    rw [h, e1, colNumLoop_one, itoa_one]
    decide
  · have h := (cell_codec_core 37 1 (by norm_num) (by norm_num [MaxColumns])
      (by norm_num) (by norm_num [TotalRows])).1
    have e37 : (37 : Int).toNat = 37 := rfl
    have e1 : (1 : Int).toNat = 1 := rfl
    rw [h, e37, e1, colNumLoop_37, itoa_one]
    decide
  · decide

/-- Witness for C1: the round trip evaluated at the concrete coordinates
`(37, 74)`. -/
theorem C1_codec_roundtrip_witness :
    ∃ cell, CoordinatesToCellName 37 74 = .ok cell ∧
      CellNameToCoordinates cell = .ok (37, 74) :=
  C1_codec_roundtrip.1 37 74 (by norm_num) (by norm_num [MaxColumns])
    (by norm_num) (by norm_num [TotalRows])

/-- **C2**: for every `n` with `1 ≤ n ≤ MaxColumns`,
`ColumnNameToNumber (ColumnNumberToName n)` returns `n` with no error; in
particular `ColumnNumberToName 37 = "AK"`. -/
theorem C2_column_codec_bijection :
    (∀ n : Int, 1 ≤ n → n ≤ MaxColumns →
      ∃ s, ColumnNumberToName n = .ok s ∧ ColumnNameToNumber s = .ok n) ∧
    ColumnNumberToName 37 = .ok "AK" := by
  constructor
  · intro n h1 h2
    exact ⟨_, (column_codec_int n h1 h2).1, (column_codec_int n h1 h2).2⟩
  · have h := (column_codec_int 37 (by norm_num) (by norm_num [MaxColumns])).1
    have e37 : (37 : Int).toNat = 37 := rfl
    rw [h, e37, colNumLoop_37]
    decide

/-- Witness for C2: the column codec round trip evaluated at `n = 37`. -/
theorem C2_column_codec_bijection_witness :
    ∃ s, ColumnNumberToName 37 = .ok s ∧ ColumnNameToNumber s = .ok 37 :=
  C2_column_codec_bijection.1 37 (by norm_num) (by norm_num [MaxColumns])

/-! ## C3: exact characterization of `SplitCellName` -/

theorem lastIndexFunc_eq_none (p : Char → Bool) (l : List Char)
    (h : lastIndexFunc l p = none) : ∀ x ∈ l, p x = false := by
  induction l with
  | nil => intro x hx; simp at hx
  | cons c rest ih =>
    rw [lastIndexFunc] at h
    cases hrec : lastIndexFunc rest p with
    | some k => rw [hrec] at h; simp at h
    | none =>
      rw [hrec] at h
      intro x hx
      rcases List.mem_cons.1 hx with hx | hx
      · subst hx
        by_cases hp : p x
        · rw [if_pos hp] at h; simp at h
        · simpa using hp
      · exact ih hrec x hx

theorem lastIndexFunc_spec (p : Char → Bool) :
    ∀ (l : List Char) (i : Nat), lastIndexFunc l p = some i →
      i < l.length ∧ p (l.getD i '0') = true ∧
      ∀ j, i < j → j < l.length → p (l.getD j '0') = false := by
  intro l
  induction l with
  | nil => intro i h; simp [lastIndexFunc] at h
  | cons c rest ih =>
    intro i h
    rw [lastIndexFunc] at h
    cases hrec : lastIndexFunc rest p with
    | some k =>
      rw [hrec] at h
      have hik : i = k + 1 := by simpa using h.symm
      subst hik
      obtain ⟨hk1, hk2, hk3⟩ := ih k hrec
      refine ⟨by simpa using hk1, by simpa using hk2, ?_⟩
      intro j hj1 hj2
      cases j with
      | zero => omega
      | succ j' =>
        simpa using hk3 j' (by omega) (by simpa using hj2)
    | none =>
      rw [hrec] at h
      by_cases hp : p c
      · rw [if_pos hp] at h
        have hi0 : i = 0 := by simpa using h.symm
        subst hi0
        refine ⟨by simp, by simpa using hp, ?_⟩
        intro j hj1 hj2
        cases j with
        | zero => omega
        | succ j' =>
          have hj2' : j' < rest.length := by simpa using hj2
          have hmem : rest.getD j' '0' ∈ rest := by
            rw [List.getD_eq_getElem _ _ hj2']
            exact List.getElem_mem hj2'
          simpa using lastIndexFunc_eq_none p rest hrec _ hmem
      · rw [if_neg hp] at h
        simp at h

/-- Success characterization of `SplitCellName`, construction direction:
any decomposition `s = pre ++ [b] ++ suf` where the first character and `b`
are letter-or-`$`, everything after `b` is not, and the tail parses to a
positive integer, makes `SplitCellName` succeed with the `$`-stripped
prefix and that integer. -/
theorem SplitCellName_ok_of (s : String) (pre : List Char) (b : Char)
    (suf : List Char) (r : Int)
    (hdecomp : s.toList = pre ++ [b] ++ suf)
    (hhead : isAlphaOrDollar ((pre ++ [b]).headD '0') = true)
    (hb : isAlphaOrDollar b = true)
    (hsuf : ∀ x ∈ suf, isAlphaOrDollar x = false)
    (hsufne : suf ≠ [])
    (hatoi : atoi suf = some r)
    (hr : 0 < r) :
    SplitCellName s
      = .ok (((pre ++ [b]).filter (fun ch => ch ≠ '$')).asString, r) := by
  obtain ⟨hd, tl, hl⟩ : ∃ hd tl, s.toList = hd :: tl := by
    rcases pre with _ | ⟨p, ps⟩
    · exact ⟨b, suf, by simpa using hdecomp⟩
    · exact ⟨p, ps ++ [b] ++ suf, by simpa using hdecomp⟩
  have hback : hd :: tl = (pre ++ [b]) ++ suf := by
    rw [← hl]
    simpa using hdecomp
  have hhd : isAlphaOrDollar hd = true := by
    rcases pre with _ | ⟨p, ps⟩
    · have hdb : hd = b := by
        have h2 := hback
        simp only [List.nil_append, List.cons_append] at h2
        injection h2 with h3 _
      rw [hdb]
      exact hb
    · have hdp : hd = p := by
        have h2 := hback
        simp only [List.cons_append, List.append_assoc] at h2
        injection h2 with h3 _
      rw [hdp]
      simpa using hhead
  have hlif : lastIndexFunc (hd :: tl) isAlphaOrDollar = some pre.length := by
    rw [hback]
    rw [lastIndexFunc_append_nofalse _ _ _ hsuf]
    exact lastIndexFunc_concat_true _ _ _ hb
  rw [SplitCellName.eq_def]
  simp only [hl]
  rw [if_pos hhd]
  simp only [hlif]
  have hlen : (hd :: tl).length = pre.length + 1 + suf.length := by
    rw [hback]
    simp
    omega
  rw [if_pos (by rw [hlen]; have := List.length_pos.mpr hsufne; omega)]
  have htk : pre.length + 1 = (pre ++ [b]).length := by simp
  rw [hback, htk, List.take_left, List.drop_left]
  simp only [hatoi]
  rw [if_pos hr]

/-- Success characterization of `SplitCellName`, elimination direction. -/
theorem SplitCellName_ok_elim (s : String) (c : String) (r : Int)
    (h : SplitCellName s = .ok (c, r)) :
    ∃ pre b suf, s.toList = pre ++ [b] ++ suf ∧
      isAlphaOrDollar ((pre ++ [b]).headD '0') = true ∧
      isAlphaOrDollar b = true ∧
      (∀ x ∈ suf, isAlphaOrDollar x = false) ∧
      suf ≠ [] ∧ atoi suf = some r ∧ 0 < r ∧
      c = ((pre ++ [b]).filter (fun ch => ch ≠ '$')).asString := by
  rw [SplitCellName.eq_def] at h
  cases hl : s.toList with
  | nil => rw [hl] at h; simp at h
  | cons hd tl =>
    rw [hl] at h
    by_cases hhd : isAlphaOrDollar hd = true
    · cases hli : lastIndexFunc (hd :: tl) isAlphaOrDollar with
      | none => simp [hli, hhd] at h
      | some i =>
        simp only [hli, if_pos hhd] at h
        by_cases hg : i + 1 < (hd :: tl).length
        · rw [if_pos hg] at h
          cases hat : atoi (List.drop (i + 1) (hd :: tl)) with
          | none => rw [hat] at h; simp at h
          | some rv =>
            simp only [hat] at h
            by_cases hpos : rv > 0
            · rw [if_pos hpos] at h
              rw [Except.ok.injEq, Prod.mk.injEq] at h
              obtain ⟨hc, hrv⟩ := h
              obtain ⟨hi1, hi2, hi3⟩ := lastIndexFunc_spec _ _ _ hli
              have htsucc : List.take (i + 1) (hd :: tl)
                  = List.take i (hd :: tl) ++ [(hd :: tl).getD i '0'] := by
                rw [List.take_succ]
                congr 1
                rw [List.getElem?_eq_getElem hi1, List.getD_eq_getElem _ _ hi1]
                rfl
              refine ⟨List.take i (hd :: tl), (hd :: tl).getD i '0',
                List.drop (i + 1) (hd :: tl), ?_, ?_, hi2, ?_, ?_, ?_, ?_, ?_⟩
              · rw [← htsucc, List.take_append_drop]
              · cases i with
                | zero => simpa using hhd
                | succ i' =>
                  rw [List.take_succ_cons]
                  simpa using hhd
              · intro x hx
                obtain ⟨k, hk, hkx⟩ := List.getElem_of_mem hx
                have hk2 : i + 1 + k < (hd :: tl).length := by
                  rw [List.length_drop] at hk
                  omega
                have : (List.drop (i + 1) (hd :: tl))[k] = (hd :: tl)[i + 1 + k] :=
                  List.getElem_drop _
                rw [this] at hkx
                rw [← hkx]
                have := hi3 (i + 1 + k) (by omega) hk2
                rwa [List.getD_eq_getElem _ _ hk2] at this
              · intro hnil
                rw [hnil] at hat
                rw [show atoi [] = none from rfl] at hat
                cases hat
              · rw [hat, hrv]
              · omega
              · rw [← htsucc]
                exact hc.symm
            · rw [if_neg hpos] at h
              simp at h
        · rw [if_neg hg] at h
          simp at h
    · simp [hhd] at h

/-- `SplitCellName` only ever fails with `invalidCellName` naming its
input. -/
theorem SplitCellName_error_shape (s : String) (e : Err)
    (h : SplitCellName s = .error e) : e = .invalidCellName s := by
  rw [SplitCellName.eq_def] at h
  repeat' split at h
  all_goals first
    | (injection h with h1; exact h1.symm)
    | (cases h)

/-- ASCII letter test (`A`-`Z`, `a`-`z`), for the spec-side pattern. -/
def isLetterCh (c : Char) : Bool :=
  (decide (65 ≤ c.toNat) && decide (c.toNat ≤ 90)) ||
  (decide (97 ≤ c.toNat) && decide (c.toNat ≤ 122))

/-- The reference pattern of claim C3, following the spec's words: a string
matches `[$]Letters+[$]Digits+` (optional `$`, one or more letters,
optional `$`, one or more digits, nothing else) with the digits forming a
positive integer; on a match it yields the letter part and that integer. -/
def specCellPattern (s : String) : Option (String × Int) :=
  let l := s.toList
  let l1 := if l.headD '0' = '$' then l.tail else l
  let letters := l1.takeWhile isLetterCh
  let l2 := l1.dropWhile isLetterCh
  if letters = [] then none
  else
    let l3 := if l2.headD '0' = '$' then l2.tail else l2
    let digits := l3.takeWhile isDigitCh
    let l4 := l3.dropWhile isDigitCh
    if digits = [] ∨ l4 ≠ [] then none
    else if 0 < digitsVal digits then
      some (letters.asString, (digitsVal digits : Int))
    else none

/-- The exact success/failure condition of `SplitCellName` as the code
implements it: first character letter-or-`$`, a decomposition at the last
letter-or-`$` character, and a strictly positive `Atoi`-parse of the
remainder. -/
def SplitSpecOk (s c : String) (r : Int) : Prop :=
  ∃ pre : List Char, ∃ b : Char, ∃ suf : List Char,
    s.toList = pre ++ [b] ++ suf ∧
    isAlphaOrDollar ((pre ++ [b]).headD '0') = true ∧
    isAlphaOrDollar b = true ∧
    (∀ x ∈ suf, isAlphaOrDollar x = false) ∧
    suf ≠ [] ∧
    atoi suf = some r ∧
    0 < r ∧
    c = ((pre ++ [b]).filter (fun ch => ch ≠ '$')).asString

/-- **C3 (counterexample)**: the string `"A1B2"` does not match the
claimed pattern `[$]Letters+[$]Digits+`, yet `SplitCellName` does not fail
on it: it succeeds, returning `("A1B", 2)`.  So `SplitCellName` does not
fail *exactly* on the non-matching strings, refuting the claim as
stated. -/
theorem C3_split_counterexample :
    specCellPattern "A1B2" = none ∧
    SplitCellName "A1B2" = .ok ("A1B", 2) := by
  constructor
  · rfl
  · decide

/-- **C3 (amended)**: `SplitCellName ref` succeeds exactly for the strings
of the form `first-char letter-or-$ ... last letter-or-$ ... digits` whose
remainder after the last letter-or-`$` character parses under Go integer
syntax (optional sign allowed) to a positive integer; it then returns the
prefix up to that character with `$` stripped, and the parsed number; on
every other string it fails with `InvalidCellName` naming the input. -/
theorem C3_split_amended (s : String) :
    (∀ c r, SplitCellName s = .ok (c, r) ↔ SplitSpecOk s c r) ∧
    (SplitCellName s = .error (.invalidCellName s) ↔ ∀ c r, ¬ SplitSpecOk s c r) := by
  have hfwd : ∀ c r, SplitCellName s = .ok (c, r) → SplitSpecOk s c r := by
    intro c r h
    obtain ⟨pre, b, suf, h1, h2, h3, h4, h5, h6, h7, h8⟩ :=
      SplitCellName_ok_elim s c r h
    exact ⟨pre, b, suf, h1, h2, h3, h4, h5, h6, h7, h8⟩
  have hbwd : ∀ c r, SplitSpecOk s c r → SplitCellName s = .ok (c, r) := by
    intro c r ⟨pre, b, suf, h1, h2, h3, h4, h5, h6, h7, h8⟩
    rw [h8]
    exact SplitCellName_ok_of s pre b suf r h1 h2 h3 h4 h5 h6 h7
  refine ⟨fun c r => ⟨hfwd c r, hbwd c r⟩, ?_, ?_⟩
  · intro herr c r hspec
    rw [hbwd c r hspec] at herr
    cases herr
  · intro hnone
    cases hres : SplitCellName s with
    | ok cr =>
      exact absurd (hfwd cr.1 cr.2 (by rw [← hres])) (hnone cr.1 cr.2)
    | error e =>
      rw [SplitCellName_error_shape s e hres]

/-- Witness for the amended C3: the characterization applied at the
concrete input `"AK74"`, built from an explicit decomposition. -/
theorem C3_split_amended_witness : SplitCellName "AK74" = .ok ("AK", 74) :=
  ((C3_split_amended "AK74").1 "AK" 74).mpr
    ⟨['A'], 'K', ['7', '4'], by decide, by decide, by decide, by decide,
      by decide, by decide, by decide, by decide⟩

/-! ## Sheet grid normalizer (`checkSheet` / `checkSheetR0`, `excelize.go`) -/

/-- Cell record `xlsxC` (struct defined in a source file not provided;
fields restricted to the ones the provided sources touch): reference `r`,
style `s`, type tag `t`, value `v`, formula `f`. -/
structure XlsxC where
  r : String := ""
  s : Int := 0
  t : String := ""
  v : String := ""
  f : Option String := none
deriving Repr, DecidableEq

/-- Modelled from the spec: the "has value" predicate of a cell
(`xlsxC.hasValue`, defined in a source file not provided); per the spec,
"'Has value' is a derived predicate (any of value/formula/type
present)". -/
def XlsxC.hasValue (c : XlsxC) : Bool :=
  c.v ≠ "" || c.f.isSome || c.t ≠ ""

/-- Row record `xlsxRow` (struct defined in a source file not provided):
row number `r` (`0` = to-be-assigned sentinel), cells `c`, and a
representative row attribute (`hidden`). -/
structure XlsxRow where
  r : Int := 0
  c : List XlsxC := []
  hidden : Bool := false
deriving Repr, DecidableEq

/-- The zero value `xlsxC{}` of Go. -/
def emptyC : XlsxC := ⟨"", 0, "", "", none⟩

/-- The zero value `xlsxRow{}` of Go. -/
def emptyRow : XlsxRow := ⟨0, [], false⟩

/-- Go slice read `l[i]`; `none` models the index-out-of-range panic. -/
def getIdx? (l : List XlsxRow) (i : Int) : Option XlsxRow :=
  if 0 ≤ i ∧ i.toNat < l.length then l.getD i.toNat emptyRow else none

/-- Go slice write `l[i] = a`; `none` models the index-out-of-range
panic. -/
def setIdx? (l : List XlsxRow) (i : Int) (a : XlsxRow) : Option (List XlsxRow) :=
  if 0 ≤ i ∧ i.toNat < l.length then some (l.set i.toNat a) else none

/-- First loop of `checkSheet` (`excelize.go`): computes the target row
count over the working row list (the overlay record already removed),
starting from `row = 0`:
`if r.R != 0 && r.R > row { row = r.R } else if r.R != row { row++ }`. -/
def pass1 : List XlsxRow → Int → Int
  | [], row => row
  | r :: rest, row =>
    if r.r ≠ 0 ∧ r.r > row then pass1 rest r.r
    else if r.r ≠ row then pass1 rest (row + 1)
    else pass1 rest row

/-- Second loop of `checkSheet`: places each record into the dense grid;
a record whose number equals the current counter (`row > 0`) has its cells
appended to the row already there; an explicit number is placed at its
index and becomes the counter; a `0` record is assigned the next counter
value.  `none` models a Go index panic. -/
def pass2 : List XlsxRow → List XlsxRow → Int → Option (List XlsxRow × Int)
  | [], grid, row => some (grid, row)
  | r :: rest, grid, row =>
    if r.r = row ∧ row > 0 then
      match getIdx? grid (r.r - 1) with
      | none => none
      | some old =>
        match setIdx? grid (r.r - 1) { old with c := old.c ++ r.c } with
        | none => none
        | some grid2 => pass2 rest grid2 row
    else if r.r ≠ 0 then
      match setIdx? grid (r.r - 1) r with
      | none => none
      | some grid2 => pass2 rest grid2 r.r
    else
      match setIdx? grid (row + 1 - 1) { r with r := row + 1 } with
      | none => none
      | some grid2 => pass2 rest grid2 (row + 1)

/-- Final loop of `checkSheet`:
`for i := 1; i <= row; i++ { sheetData.Row[i-1].R = i }`,
walking the grid positionally; `none` models the index panic when the
counter exceeds the grid length. -/
def fixGo : List XlsxRow → Int → Int → Option (List XlsxRow)
  | l, i, row =>
    if i > row then some l
    else
      match l with
      | [] => none
      | r :: rest =>
        match fixGo rest (i + 1) row with
        | none => none
        | some rest2 => some ({ r with r := i } :: rest2)

/-- Row padding inside `checkSheetR0`:
`for r := rows; r < row; r++ { sheetData.Row = append(..., xlsxRow{R: r + 1}) }`. -/
def padRowsTo (grid : List XlsxRow) (row : Nat) : List XlsxRow :=
  grid ++ (List.range (row - grid.length)).map
    (fun k => { emptyRow with r := (grid.length + k + 1 : Int) })

/-- Cell padding inside `checkSheetR0`:
`for c := columns; c < col; c++ { ...C = append(...C, xlsxC{}) }`. -/
def padCellsTo (cs : List XlsxC) (col : Nat) : List XlsxC :=
  cs ++ List.replicate (col - cs.length) emptyC

/-- In-place update of one list position (Go `l[i] = f l[i]`; all uses are
in bounds after padding). -/
def updateAt {α : Type} : List α → Nat → (α → α) → List α
  | [], _, _ => []
  | a :: rest, 0, f => f a :: rest
  | a :: rest, i + 1, f => a :: updateAt rest i f

/-- One overlay cell of `checkSheetR0` (`excelize.go`): if the cell's
reference parses, pad the grid so the position is addressable and
substitute the overlay cell there unless the position already has a
value. -/
def stepR0 (grid : List XlsxRow) (cell : XlsxC) : List XlsxRow :=
  match CellNameToCoordinates cell.r with
  | .error _ => grid
  | .ok (col, row) =>
    let grid2 := padRowsTo grid row.toNat
    updateAt grid2 (row.toNat - 1) (fun rw =>
      let cs := padCellsTo rw.c col.toNat
      if (cs.getD (col.toNat - 1) emptyC).hasValue then { rw with c := cs }
      else { rw with c := cs.set (col.toNat - 1) cell })

/-- `checkSheetR0` (`excelize.go`): folds the overlay row's cells over the
grid. -/
def checkSheetR0 (r0 : XlsxRow) (grid : List XlsxRow) : List XlsxRow :=
  r0.c.foldl stepR0 grid

/-- The working list of `checkSheet`: the first record is set aside as the
row-zero overlay when its number is `0`. -/
def workRows (rows : List XlsxRow) : XlsxRow × List XlsxRow :=
  match rows with
  | r :: rest => if r.r = 0 then (r, rest) else (emptyRow, rows)
  | [] => (emptyRow, [])

/-- `checkSheet` (`excelize.go`): overlay extraction, the counting pass,
the placement pass over a freshly allocated dense grid, the final
renumbering loop, and overlay resolution.  `none` models a Go slice-index
panic (reachable for some adversarial inputs). -/
def checkSheet (rows : List XlsxRow) : Option (List XlsxRow) :=
  let wr := workRows rows
  let cnt := pass1 wr.2 0
  if 0 ≤ cnt then
    match pass2 wr.2 (List.replicate cnt.toNat emptyRow) 0 with
    | none => none
    | some (grid, row) =>
      match fixGo grid 1 row with
      | none => none
      | some grid2 => some (checkSheetR0 wr.1 grid2)
  else none

/-! ## C4/C5: counter walk and monotone-input machinery -/

/-- The idealized row counter walk: a `0` record takes the next counter
value, an explicit record takes its own number. -/
def cw : Int → List XlsxRow → Int
  | c, [] => c
  | c, r :: rest => if r.r = 0 then cw (c + 1) rest else cw r.r rest

/-- Monotone ("well-ordered") input: walking the records in order, every
explicit row number is at least the current counter, and a `0` record
never occurs while the counter is still `0`. -/
def goodSeqB : Int → List XlsxRow → Bool
  | _, [] => true
  | c, r :: rest =>
    if r.r = 0 then decide (0 < c) && goodSeqB (c + 1) rest
    else decide (c ≤ r.r) && goodSeqB r.r rest

theorem cw_ge : ∀ (l : List XlsxRow) (c : Int), goodSeqB c l = true → c ≤ cw c l := by
  intro l
  induction l with
  | nil => intro c _; simp [cw]
  | cons r rest ih =>
    intro c h
    rw [goodSeqB] at h
    rw [cw]
    by_cases hr : r.r = 0
    · rw [if_pos hr] at h ⊢
      simp only [Bool.and_eq_true, decide_eq_true_eq] at h
      have := ih (c + 1) h.2
      omega
    · rw [if_neg hr] at h ⊢
      simp only [Bool.and_eq_true, decide_eq_true_eq] at h
      have := ih r.r h.2
      omega

theorem pass1_eq_cw : ∀ (l : List XlsxRow) (c : Int),
    goodSeqB c l = true → pass1 l c = cw c l := by
  intro l
  induction l with
  | nil => intro c _; rfl
  | cons r rest ih =>
    intro c h
    rw [goodSeqB] at h
    rw [pass1, cw]
    by_cases hr : r.r = 0
    · rw [if_pos hr] at h
      simp only [Bool.and_eq_true, decide_eq_true_eq] at h
      rw [if_neg (by simp [hr]), if_pos (by omega), ih (c + 1) h.2, if_pos hr]
    · rw [if_neg hr] at h
      simp only [Bool.and_eq_true, decide_eq_true_eq] at h
      by_cases hgt : r.r > c
      · rw [if_pos ⟨hr, hgt⟩, ih r.r h.2, if_neg hr]
      · have hrc : r.r = c := by omega
        rw [if_neg (by omega), if_neg (by omega), ih c (by rw [← hrc]; exact h.2),
          if_neg hr, hrc]

/-- The effect of the final renumbering loop when it covers the whole
grid. -/
def renum : List XlsxRow → Int → List XlsxRow
  | [], _ => []
  | r :: rest, i => { r with r := i } :: renum rest (i + 1)

theorem renum_length : ∀ (l : List XlsxRow) (i : Int), (renum l i).length = l.length := by
  intro l
  induction l with
  | nil => intro i; rfl
  | cons r rest ih => intro i; simp [renum, ih]

theorem renum_getD : ∀ (l : List XlsxRow) (i : Int) (k : Nat), k < l.length →
    (renum l i).getD k emptyRow = { l.getD k emptyRow with r := i + k } := by
  intro l
  induction l with
  | nil => intro i k hk; simp at hk
  | cons r rest ih =>
    intro i k hk
    cases k with
    | zero => simp [renum]
    | succ k' =>
      rw [renum]
      have := ih (i + 1) k' (by simpa using hk)
      simp only [List.getD_cons_succ, this]
      congr 1
      omega

theorem fixGo_eq_renum : ∀ (l : List XlsxRow) (i row : Int),
    i + l.length = row + 1 → fixGo l i row = some (renum l i) := by
  intro l
  induction l with
  | nil =>
    intro i row h
    rw [fixGo, if_pos (by simp at h; omega)]
    rfl
  | cons r rest ih =>
    intro i row h
    simp only [List.length_cons] at h
    rw [fixGo, if_neg (by push_cast at h ⊢; omega)]
    rw [ih (i + 1) row (by push_cast at h ⊢; omega)]
    rfl

theorem setIdx?_of_lt (l : List XlsxRow) (i : Int) (a : XlsxRow)
    (h0 : 0 ≤ i) (h1 : i < (l.length : Int)) :
    setIdx? l i a = some (l.set i.toNat a) := by
  rw [setIdx?, if_pos ⟨h0, by omega⟩]

theorem getIdx?_of_lt (l : List XlsxRow) (i : Int)
    (h0 : 0 ≤ i) (h1 : i < (l.length : Int)) :
    getIdx? l i = some (l.getD i.toNat emptyRow) := by
  rw [getIdx?, if_pos ⟨h0, by omega⟩]

/-- Under a monotone input the placement pass succeeds (no index panic)
and its final counter is the counter-walk value. -/
theorem pass2_good : ∀ (l : List XlsxRow) (c : Int) (grid : List XlsxRow),
    goodSeqB c l = true → 0 ≤ c → cw c l ≤ (grid.length : Int) →
    ∃ grid2, pass2 l grid c = some (grid2, cw c l) ∧
      grid2.length = grid.length := by
  intro l
  induction l with
  | nil => intro c grid _ _ _; exact ⟨grid, rfl, rfl⟩
  | cons r rest ih =>
    intro c grid h hc hlen
    rw [goodSeqB] at h
    rw [pass2]
    by_cases hr : r.r = 0
    · rw [if_pos hr] at h
      simp only [Bool.and_eq_true, decide_eq_true_eq] at h
      obtain ⟨hc0, hrest⟩ := h
      have hcw : cw c (r :: rest) = cw (c + 1) rest := by rw [cw, if_pos hr]
      rw [hcw] at hlen
      have hge := cw_ge rest (c + 1) hrest
      rw [if_neg (by rintro ⟨h1, h2⟩; omega), if_neg (by simp [hr])]
      have hset := setIdx?_of_lt grid (c + 1 - 1) { r with r := c + 1 }
        (by omega) (by omega)
      simp only [hset]
      obtain ⟨g2, hg2, hlen2⟩ := ih (c + 1)
        (grid.set (c + 1 - 1).toNat { r with r := c + 1 }) hrest (by omega)
        (by simpa [List.length_set] using hlen)
      refine ⟨g2, ?_, ?_⟩
      · rw [hcw, hg2]
      · rw [hlen2]
        simp
    · rw [if_neg hr] at h
      simp only [Bool.and_eq_true, decide_eq_true_eq] at h
      obtain ⟨hcr, hrest⟩ := h
      have hcw : cw c (r :: rest) = cw r.r rest := by rw [cw, if_neg hr]
      rw [hcw] at hlen
      have hge := cw_ge rest r.r hrest
      by_cases heq : r.r = c
      · have hcpos : c > 0 := by omega
        rw [if_pos ⟨heq, hcpos⟩]
        have hget := getIdx?_of_lt grid (r.r - 1) (by omega) (by omega)
        simp only [hget]
        have hset := setIdx?_of_lt grid (r.r - 1)
          { grid.getD (r.r - 1).toNat emptyRow with
              c := (grid.getD (r.r - 1).toNat emptyRow).c ++ r.c }
          (by omega) (by omega)
        simp only [hset]
        have hrestc : goodSeqB c rest = true := by rw [← heq]; exact hrest
        have hcwc : cw r.r rest = cw c rest := by rw [heq]
        obtain ⟨g2, hg2, hlen2⟩ := ih c
          (grid.set (r.r - 1).toNat
            { grid.getD (r.r - 1).toNat emptyRow with
                c := (grid.getD (r.r - 1).toNat emptyRow).c ++ r.c }) hrestc
          (by omega) (by rw [← hcwc] at *; simpa [List.length_set] using hlen)
        refine ⟨g2, ?_, ?_⟩
        · rw [hcw, hg2, hcwc]
        · rw [hlen2]
          simp
      · rw [if_neg (by rintro ⟨h1, h2⟩; exact heq h1), if_pos hr]
        have hset := setIdx?_of_lt grid (r.r - 1) r (by omega) (by omega)
        simp only [hset]
        obtain ⟨g2, hg2, hlen2⟩ := ih r.r (grid.set (r.r - 1).toNat r) hrest
          (by omega) (by simpa [List.length_set] using hlen)
        refine ⟨g2, ?_, ?_⟩
        · rw [hcw, hg2]
        · rw [hlen2]
          simp

theorem padRowsTo_length (g : List XlsxRow) (n : Nat) :
    (padRowsTo g n).length = max g.length n := by
  simp [padRowsTo]
  omega

theorem padRowsTo_getD_lt (g : List XlsxRow) (n : Nat) (i : Nat)
    (h : i < g.length) : (padRowsTo g n).getD i emptyRow = g.getD i emptyRow := by
  rw [padRowsTo, List.getD_append _ _ _ _ h]

theorem padRowsTo_getD_ge (g : List XlsxRow) (n : Nat) (i : Nat)
    (h1 : g.length ≤ i) (h2 : i < (padRowsTo g n).length) :
    (padRowsTo g n).getD i emptyRow
      = { emptyRow with r := (i + 1 : Int) } := by
  rw [padRowsTo_length] at h2
  have hin : i - g.length < n - g.length := by omega
  rw [padRowsTo, List.getD_eq_getElem _ _ (by simp; omega),
    List.getElem_append_right (by omega)]
  simp only [List.getElem_map, List.getElem_range]
  congr 1
  omega

theorem updateAt_length {α : Type} : ∀ (l : List α) (i : Nat) (f : α → α),
    (updateAt l i f).length = l.length := by
  intro l
  induction l with
  | nil => intro i f; rfl
  | cons a rest ih =>
    intro i f
    cases i with
    | zero => rfl
    | succ i' => simp [updateAt, ih]

theorem updateAt_getD {α : Type} :
    ∀ (l : List α) (i : Nat) (f : α → α) (j : Nat) (d : α),
    (updateAt l i f).getD j d
      = if j = i ∧ j < l.length then f (l.getD j d) else l.getD j d := by
  intro l
  induction l with
  | nil => intro i f j d; simp [updateAt]
  | cons a rest ih =>
    intro i f j d
    cases i with
    | zero =>
      cases j with
      | zero => simp [updateAt]
      | succ j' => simp [updateAt]
    | succ i' =>
      cases j with
      | zero => simp [updateAt]
      | succ j' =>
        simp only [updateAt, List.getD_cons_succ, List.length_cons]
        rw [ih i' f j' d]
        by_cases hj : j' = i' ∧ j' < rest.length
        · rw [if_pos hj, if_pos (by omega)]
        · rw [if_neg hj, if_neg (by omega)]

/-- `stepR0` never changes a row's stored number at positions that exist,
and numbers new rows correctly: it preserves the numbering invariant. -/
theorem stepR0_pres (grid : List XlsxRow) (cell : XlsxC)
    (h : ∀ i, i < grid.length → (grid.getD i emptyRow).r = (i : Int) + 1) :
    ∀ i, i < (stepR0 grid cell).length →
      ((stepR0 grid cell).getD i emptyRow).r = (i : Int) + 1 := by
  intro i hi
  rw [stepR0] at hi ⊢
  cases hcc : CellNameToCoordinates cell.r with
  | error e =>
    simp only [hcc] at hi ⊢
    exact h i hi
  | ok cr =>
    simp only [hcc] at hi ⊢
    rw [updateAt_length] at hi
    rw [updateAt_getD]
    have hpad : ∀ j, j < (padRowsTo grid cr.2.toNat).length →
        ((padRowsTo grid cr.2.toNat).getD j emptyRow).r = (j : Int) + 1 := by
      intro j hj
      by_cases hjl : j < grid.length
      · rw [padRowsTo_getD_lt _ _ _ hjl]
        exact h j hjl
      · rw [padRowsTo_getD_ge _ _ _ (by omega) hj]
    by_cases hcase : i = cr.2.toNat - 1 ∧ i < (padRowsTo grid cr.2.toNat).length
    · rw [if_pos hcase]
      have hr := hpad i hcase.2
      by_cases hv : ((padCellsTo ((padRowsTo grid cr.2.toNat).getD i emptyRow).c
          cr.1.toNat).getD (cr.1.toNat - 1) emptyC).hasValue
      · simp only [hv, if_true]
        exact hr
      · simp only [hv, Bool.false_eq_true, if_false]
        exact hr
    · rw [if_neg hcase]
      exact hpad i hi

/-- `checkSheetR0` preserves the numbering invariant. -/
theorem checkSheetR0_pres (cells : List XlsxC) :
    ∀ (grid : List XlsxRow),
    (∀ i, i < grid.length → (grid.getD i emptyRow).r = (i : Int) + 1) →
    ∀ i, i < (List.foldl stepR0 grid cells).length →
      ((List.foldl stepR0 grid cells).getD i emptyRow).r = (i : Int) + 1 := by
  induction cells with
  | nil => intro grid h i hi; exact h i hi
  | cons cell rest ih =>
    intro grid h i hi
    rw [List.foldl_cons] at hi ⊢
    exact ih (stepR0 grid cell) (stepR0_pres grid cell h) i hi

/-- **C4 (counterexample)**: for the parsed row list with explicit numbers
in decreasing order `[{R:2}, {R:1}]`, normalization succeeds but the
resulting grid has `grid[2].number = 0 ≠ 3`: the invariant
`grid[i].number == i+1` does not hold for every index. -/
theorem C4_grid_numbering_counterexample :
    ∃ grid, checkSheet [{ r := 2 }, { r := 1 }] = some grid ∧
      grid.length = 3 ∧ ¬ ((grid.getD 2 emptyRow).r = (2 : Int) + 1) := by
  refine ⟨[{ r := 1 }, { r := 2 }, { r := 0 }], by decide, by decide, by decide⟩

/-- **C4 (amended)**: the invariant `grid[i].number == i+1` for every
index `i` holds after normalization (including row-zero overlay
resolution) whenever the working row list is monotone: each explicit row
number is at least the current row counter and a sentinel-0 record never
appears while the counter is 0 (in particular, for row records sorted by
explicit number).  For decreasing or otherwise out-of-order explicit
numbers the invariant can fail (see the counterexample): rows beyond the
final counter value keep number 0 or their explicit number. -/
theorem C4_grid_numbering_amended (rows : List XlsxRow)
    (h : goodSeqB 0 (workRows rows).2 = true) :
    ∃ grid, checkSheet rows = some grid ∧
      ∀ i, i < grid.length → (grid.getD i emptyRow).r = (i : Int) + 1 := by
  have hN := pass1_eq_cw (workRows rows).2 0 h
  have hN0 : (0 : Int) ≤ cw 0 (workRows rows).2 := cw_ge _ 0 h
  have htn : (((cw 0 (workRows rows).2).toNat : Nat) : Int)
      = cw 0 (workRows rows).2 := Int.toNat_of_nonneg hN0
  rw [checkSheet]
  simp only [hN, if_pos hN0]
  obtain ⟨g2, hg2, hlen2⟩ := pass2_good (workRows rows).2 0
    (List.replicate (cw 0 (workRows rows).2).toNat emptyRow) h (le_refl 0)
    (by rw [List.length_replicate, htn])
  simp only [hg2]
  have hlen2' : (g2.length : Int) = cw 0 (workRows rows).2 := by
    rw [hlen2, List.length_replicate, htn]
  rw [fixGo_eq_renum g2 1 (cw 0 (workRows rows).2) (by omega)]
  refine ⟨_, rfl, ?_⟩
  have hren : ∀ i, i < (renum g2 1).length →
      ((renum g2 1).getD i emptyRow).r = (i : Int) + 1 := by
    intro i hi
    rw [renum_length] at hi
    rw [renum_getD g2 1 i hi]
    show (1 : Int) + (i : Int) = (i : Int) + 1
    omega
  exact checkSheetR0_pres (workRows rows).1.c (renum g2 1) hren

/-- Witness for the amended C4: the invariant evaluated on the concrete
monotone input `[{R:2}, {R:0}]`. -/
theorem C4_grid_numbering_witness :
    goodSeqB 0 (workRows [{ r := 2 }, { r := 0 }]).2 = true ∧
    ∃ grid, checkSheet [{ r := 2 }, { r := 0 }] = some grid ∧
      ∀ i, i < grid.length → (grid.getD i emptyRow).r = (i : Int) + 1 :=
  ⟨by decide, C4_grid_numbering_amended [{ r := 2 }, { r := 0 }] (by decide)⟩

theorem set_getD_same (l : List XlsxRow) (i : Nat) (a : XlsxRow)
    (h : i < l.length) : (l.set i a).getD i emptyRow = a := by
  rw [List.getD_eq_getElem _ _ (by simpa using h)]
  simp [List.getElem_set]

/-- **C5 (counterexample)**: with a non-adjacent duplicate — records
`{R:1,[v=1]}, {R:2}, {R:1,[v=2]}` — the later duplicate of row 1 *replaces*
the earlier record's cells instead of appending to them: the cell `v=1` is
lost. -/
theorem C5_duplicate_append_counterexample :
    ∃ grid, checkSheet [{ r := 1, c := [{ r := "A1", v := "1" }] },
        { r := 2 }, { r := 1, c := [{ r := "A1", v := "2" }] }] = some grid ∧
      (grid.getD 0 emptyRow).c = [{ r := "A1", v := "2" }] ∧
      (grid.getD 0 emptyRow).c
        ≠ [{ r := "A1", v := "1" }, { r := "A1", v := "2" }] := by
  refine ⟨[{ r := 1, c := [{ r := "A1", v := "2" }] }, { r := 2 }, { r := 0 }],
    by decide, by decide, by decide⟩

/-- **C5 (amended)**: a duplicate row record's cells are appended to the
row already placed at that number when the duplicate is adjacent — i.e.
when the current row counter still equals that number, no intervening
record having advanced it.  For every row number `n ≥ 1` and cell lists
`a`, `b`, normalizing `[{R:n, a}, {R:n, b}]` yields a grid whose row `n`
holds `a ++ b`.  (A non-adjacent duplicate instead replaces the row; see
the counterexample.) -/
theorem C5_duplicate_append_amended (n : Nat) (hn : 0 < n) (a b : List XlsxC) :
    ∃ grid,
      checkSheet [{ r := (n : Int), c := a }, { r := (n : Int), c := b }]
        = some grid ∧
      grid.length = n ∧
      grid.getD (n - 1) emptyRow = { r := (n : Int), c := a ++ b } := by
  have hne : ((n : Int)) ≠ 0 := by exact_mod_cast hn.ne'
  have hnpos : (0 : Int) < (n : Int) := by exact_mod_cast hn
  have htn : ((n : Int)).toNat = n := by omega
  have hwr : workRows [{ r := (n : Int), c := a }, { r := (n : Int), c := b }]
      = (emptyRow, [{ r := (n : Int), c := a }, { r := (n : Int), c := b }]) := by
    rw [workRows, if_neg hne]
  have hp1 : pass1 [({ r := (n : Int), c := a } : XlsxRow),
      { r := (n : Int), c := b }] 0 = (n : Int) := by
    rw [pass1, if_pos (by exact ⟨hne, hnpos⟩)]
    rw [pass1, if_neg (by exact fun h => lt_irrefl _ h.2),
      if_neg (by exact fun h => h rfl)]
    rfl
  rw [checkSheet]
  simp only [hwr, hp1]
  rw [if_pos (le_of_lt hnpos)]
  rw [pass2, if_neg (by exact fun h => lt_irrefl _ h.2), if_pos (by exact hne)]
  have hset1 := setIdx?_of_lt (List.replicate ((n : Int)).toNat emptyRow)
    ((n : Int) - 1) { r := (n : Int), c := a } (by omega)
    (by simp only [List.length_set, List.length_replicate, htn]; omega)
  simp only [hset1]
  rw [pass2, if_pos (by exact ⟨rfl, hnpos⟩)]
  have hget := getIdx?_of_lt ((List.replicate ((n : Int)).toNat emptyRow).set
    ((n : Int) - 1).toNat { r := (n : Int), c := a }) ((n : Int) - 1)
    (by omega) (by simp only [List.length_set, List.length_replicate, htn]; omega)
  have hgetv : ((List.replicate ((n : Int)).toNat emptyRow).set
      ((n : Int) - 1).toNat { r := (n : Int), c := a }).getD
      ((n : Int) - 1).toNat emptyRow = { r := (n : Int), c := a } :=
    set_getD_same _ _ _ (by simp only [List.length_set, List.length_replicate, htn]; omega)
  rw [hgetv] at hget
  simp only [hget]
  have hset2 := setIdx?_of_lt ((List.replicate ((n : Int)).toNat emptyRow).set
    ((n : Int) - 1).toNat { r := (n : Int), c := a }) ((n : Int) - 1)
    { r := (n : Int), c := a ++ b } (by omega) (by simp only [List.length_set, List.length_replicate, htn]; omega)
  simp only [hset2]
  rw [pass2]
  have hfix := fixGo_eq_renum (((List.replicate ((n : Int)).toNat
    emptyRow).set ((n : Int) - 1).toNat { r := (n : Int), c := a }).set
    ((n : Int) - 1).toNat { r := (n : Int), c := a ++ b }) 1 (n : Int)
    (by simp only [List.length_set, List.length_replicate, htn]; omega)
  simp only [hfix]
  have hr0 : ∀ g, checkSheetR0 emptyRow g = g := fun g => rfl
  refine ⟨_, rfl, ?_, ?_⟩
  · rw [hr0, renum_length]
    simp [htn]
  · rw [hr0, renum_getD _ 1 (n - 1) (by simp only [List.length_set, List.length_replicate, htn]; omega)]
    rw [List.set_set]
    have hidx : ((n : Int) - 1).toNat = n - 1 := by omega
    rw [hidx, set_getD_same _ _ _ (by simp only [List.length_set, List.length_replicate, htn]; omega)]
    have hcast : (1 : Int) + ((n - 1 : Nat) : Int) = (n : Int) := by omega
    rw [hcast]

/-- Witness for the amended C5: adjacent duplicates of row 2 have their
cells appended. -/
theorem C5_duplicate_append_witness :
    ∃ grid, checkSheet [{ r := (2 : Int), c := [{ r := "A2", v := "x" }] },
        { r := (2 : Int), c := [{ r := "B2", v := "y" }] }] = some grid ∧
      grid.length = 2 ∧
      grid.getD 1 emptyRow
        = { r := (2 : Int),
            c := [{ r := "A2", v := "x" }] ++ [{ r := "B2", v := "y" }] } :=
  C5_duplicate_append_amended 2 (by decide)
    [{ r := "A2", v := "x" }] [{ r := "B2", v := "y" }]

/-! ## C6: row-zero overlay first-wins -/

theorem colNameLoop_ge : ∀ (l : List Char) (acc multi v : Nat),
    colNameLoop l acc multi = some v → acc ≤ v := by
  intro l
  induction l with
  | nil =>
    intro acc multi v h
    rw [colNameLoop] at h
    injection h with h1
    omega
  | cons c rest ih =>
    intro acc multi v h
    rw [colNameLoop] at h
    by_cases h1 : 65 ≤ c.toNat ∧ c.toNat ≤ 90
    · rw [if_pos h1] at h
      have := ih _ _ _ h
      omega
    · rw [if_neg h1] at h
      by_cases h2 : 97 ≤ c.toNat ∧ c.toNat ≤ 122
      · rw [if_pos h2] at h
        have := ih _ _ _ h
        omega
      · rw [if_neg h2] at h
        cases h

theorem colNameLoop_pos (c : Char) (rest : List Char) (v : Nat)
    (h : colNameLoop (c :: rest) 0 1 = some v) : 1 ≤ v := by
  rw [colNameLoop] at h
  by_cases h1 : 65 ≤ c.toNat ∧ c.toNat ≤ 90
  · rw [if_pos h1] at h
    have := colNameLoop_ge _ _ _ _ h
    omega
  · rw [if_neg h1] at h
    by_cases h2 : 97 ≤ c.toNat ∧ c.toNat ≤ 122
    · rw [if_pos h2] at h
      have := colNameLoop_ge _ _ _ _ h
      omega
    · rw [if_neg h2] at h
      cases h

theorem ColumnNameToNumber_pos (name : String) (v : Int)
    (h : ColumnNameToNumber name = .ok v) : 1 ≤ v := by
  rw [ColumnNameToNumber] at h
  by_cases hlen : name.toList.length = 0
  · rw [if_pos hlen] at h
    cases h
  · rw [if_neg hlen] at h
    cases hcl : colNameLoop name.toList.reverse 0 1 with
    | none => rw [hcl] at h; simp at h
    | some colNat =>
      simp only [hcl] at h
      by_cases hmax : (colNat : Int) > MaxColumns
      · rw [if_pos hmax] at h
        cases h
      · rw [if_neg hmax] at h
        injection h with h1
        obtain ⟨c, rest, hcr⟩ : ∃ c rest, name.toList.reverse = c :: rest := by
          cases hrev : name.toList.reverse with
          | nil =>
            exfalso
            apply hlen
            have := congrArg List.length hrev
            simpa using this
          | cons c rest => exact ⟨c, rest, rfl⟩
        rw [hcr] at hcl
        have := colNameLoop_pos c rest colNat hcl
        omega

theorem CellNameToCoordinates_pos (s : String) (col row : Int)
    (h : CellNameToCoordinates s = .ok (col, row)) : 1 ≤ col ∧ 1 ≤ row := by
  rw [CellNameToCoordinates] at h
  cases hs : SplitCellName s with
  | error e => simp [hs] at h
  | ok cr =>
    obtain ⟨colName, rw0⟩ := cr
    simp only [hs] at h
    by_cases hmax : rw0 > TotalRows
    · rw [if_pos hmax] at h
      cases h
    · rw [if_neg hmax] at h
      cases hcn : ColumnNameToNumber colName with
      | error e => simp [hcn] at h
      | ok colv =>
        simp only [hcn] at h
        injection h with h1
        rw [Prod.mk.injEq] at h1
        obtain ⟨hcol, hrow⟩ := h1
        obtain ⟨-, -, -, -, -, -, -, -, -, hpos, -⟩ :=
          SplitCellName_ok_elim s colName rw0 hs
        constructor
        · rw [← hcol]
          exact ColumnNameToNumber_pos colName colv hcn
        · omega

theorem updateAt_getD_self {a : Type} (l : List a) (i : Nat) (f : a → a)
    (d : a) (h : i < l.length) : (updateAt l i f).getD i d = f (l.getD i d) := by
  rw [updateAt_getD, if_pos ⟨rfl, h⟩]

/-- Observation function: the cell stored at 1-based `(col, row)` in a
grid, `none` when the position is not present. -/
def cellAt (grid : List XlsxRow) (col row : Nat) : Option XlsxC :=
  if row - 1 < grid.length then
    let rw := grid.getD (row - 1) emptyRow
    if col - 1 < rw.c.length then some (rw.c.getD (col - 1) emptyC) else none
  else none

theorem padCellsTo_length (cs : List XlsxC) (n : Nat) :
    (padCellsTo cs n).length = max cs.length n := by
  simp [padCellsTo]
  omega

theorem padCellsTo_getD_lt (cs : List XlsxC) (n : Nat) (i : Nat)
    (h : i < cs.length) : (padCellsTo cs n).getD i emptyC = cs.getD i emptyC := by
  rw [padCellsTo, List.getD_append _ _ _ _ h]

theorem padCellsTo_getD_ge (cs : List XlsxC) (n : Nat) (i : Nat)
    (h1 : cs.length ≤ i) (h2 : i < (padCellsTo cs n).length) :
    (padCellsTo cs n).getD i emptyC = emptyC := by
  rw [padCellsTo_length] at h2
  rw [padCellsTo, List.getD_eq_getElem _ _ (by simp; omega),
    List.getElem_append_right (by omega)]
  simp

theorem set_getD_same_c (l : List XlsxC) (i : Nat) (a : XlsxC)
    (h : i < l.length) : (l.set i a).getD i emptyC = a := by
  rw [List.getD_eq_getElem _ _ (by simpa using h)]
  simp [List.getElem_set]

/-- Unfolding equation for `cellAt` with the `let` zeta-reduced. -/
theorem cellAt_eq (grid : List XlsxRow) (col row : Nat) :
    cellAt grid col row =
      if row - 1 < grid.length then
        if col - 1 < (grid.getD (row - 1) emptyRow).c.length then
          some ((grid.getD (row - 1) emptyRow).c.getD (col - 1) emptyC)
        else none
      else none := rfl

theorem cellAt_of (grid : List XlsxRow) (col row : Nat) (x : XlsxC)
    (h1 : row - 1 < grid.length)
    (h2 : col - 1 < (grid.getD (row - 1) emptyRow).c.length)
    (h3 : (grid.getD (row - 1) emptyRow).c.getD (col - 1) emptyC = x) :
    cellAt grid col row = some x := by
  rw [cellAt_eq, if_pos h1, if_pos h2, h3]

/-- C6: in the overlay resolution of `checkSheetR0` (excelize.go 373-390), a
cell parsed from an R-less (`r = 0`) row is written into the grid at its
coordinates only when the existing cell there has no value, formula or type;
an existing cell with content is preserved (first wins).  Stated generally for
one overlay step `stepR0`, plus two concrete end-to-end `checkSheet` runs. -/
theorem C6_overlay_first_wins :
    (∀ (grid : List XlsxRow) (cell : XlsxC) (col row : Int),
      CellNameToCoordinates cell.r = .ok (col, row) →
      (∀ old, cellAt grid col.toNat row.toNat = some old →
        old.hasValue = true →
        cellAt (stepR0 grid cell) col.toNat row.toNat = some old) ∧
      ((∀ old, cellAt grid col.toNat row.toNat = some old →
          old.hasValue = false) →
        cellAt (stepR0 grid cell) col.toNat row.toNat = some cell)) ∧
    checkSheet [{ r := 0, c := [{ r := "B2", v := "X" }] },
        { r := 2, c := [{ r := "A2", v := "5" }] }]
      = some [{ r := 1 }, { r := 2, c := [{ r := "A2", v := "5" },
          { r := "B2", v := "X" }] }] ∧
    checkSheet [{ r := 0, c := [{ r := "B2", v := "X" }] },
        { r := 2, c := [{ r := "A2", v := "5" }, { r := "B2", v := "Y" }] }]
      = some [{ r := 1 }, { r := 2, c := [{ r := "A2", v := "5" },
          { r := "B2", v := "Y" }] }] := by
  refine ⟨?_, by decide, by decide⟩
  intro grid cell col row hcc
  obtain ⟨hcol, hrow⟩ := CellNameToCoordinates_pos cell.r col row hcc
  have hR : 1 ≤ row.toNat := by omega
  have hC : 1 ≤ col.toNat := by omega
  have hstep : stepR0 grid cell
      = updateAt (padRowsTo grid row.toNat) (row.toNat - 1) (fun rw =>
          if ((padCellsTo rw.c col.toNat).getD (col.toNat - 1) emptyC).hasValue
          then { rw with c := padCellsTo rw.c col.toNat }
          else { rw with
                  c := (padCellsTo rw.c col.toNat).set (col.toNat - 1) cell }) := by
    rw [stepR0, hcc]
  have hlenpad : (padRowsTo grid row.toNat).length = max grid.length row.toNat :=
    padRowsTo_length _ _
  have hRlt : row.toNat - 1 < (padRowsTo grid row.toNat).length := by
    rw [hlenpad]
    omega
  constructor
  · intro old hold holdval
    rw [cellAt_eq] at hold
    by_cases hrowex : row.toNat - 1 < grid.length
    · rw [if_pos hrowex] at hold
      by_cases hcolex : col.toNat - 1 < (grid.getD (row.toNat - 1) emptyRow).c.length
      · rw [if_pos hcolex] at hold
        injection hold with holdv
        have hcslt : col.toNat - 1 <
            (padCellsTo (grid.getD (row.toNat - 1) emptyRow).c col.toNat).length := by
          rw [padCellsTo_length]
          omega
        have hcsv : (padCellsTo (grid.getD (row.toNat - 1) emptyRow).c
            col.toNat).getD (col.toNat - 1) emptyC = old := by
          rw [padCellsTo_getD_lt _ _ _ hcolex, holdv]
        have hcondT : ((padCellsTo (grid.getD (row.toNat - 1) emptyRow).c
            col.toNat).getD (col.toNat - 1) emptyC).hasValue = true := by
          rw [hcsv]
          exact holdval
        have hupd : (updateAt (padRowsTo grid row.toNat) (row.toNat - 1)
            (fun rw =>
              if ((padCellsTo rw.c col.toNat).getD (col.toNat - 1)
                  emptyC).hasValue
              then { rw with c := padCellsTo rw.c col.toNat }
              else { rw with c := (padCellsTo rw.c col.toNat).set (col.toNat - 1) cell })).getD
              (row.toNat - 1) emptyRow
            = { grid.getD (row.toNat - 1) emptyRow with
                c := padCellsTo (grid.getD (row.toNat - 1) emptyRow).c
                  col.toNat } := by
          rw [updateAt_getD_self _ _ _ _ hRlt, padRowsTo_getD_lt _ _ _ hrowex]
          show (if ((padCellsTo (grid.getD (row.toNat - 1) emptyRow).c
                  col.toNat).getD (col.toNat - 1) emptyC).hasValue = true
              then _ else _) = _
          rw [hcondT, if_pos rfl]
        rw [hstep]
        apply cellAt_of
        · rw [updateAt_length]
          omega
        · rw [hupd]
          exact hcslt
        · rw [hupd]
          exact hcsv
      · rw [if_neg hcolex] at hold
        cases hold
    · rw [if_neg hrowex] at hold
      cases hold
  · intro hno
    have hval0 : ((padCellsTo ((padRowsTo grid row.toNat).getD (row.toNat - 1)
        emptyRow).c col.toNat).getD (col.toNat - 1) emptyC).hasValue = false := by
      by_cases hrowex : row.toNat - 1 < grid.length
      · rw [padRowsTo_getD_lt _ _ _ hrowex]
        by_cases hcolex : col.toNat - 1 < (grid.getD (row.toNat - 1) emptyRow).c.length
        · rw [padCellsTo_getD_lt _ _ _ hcolex]
          apply hno
          rw [cellAt_eq, if_pos hrowex, if_pos hcolex]
        · rw [padCellsTo_getD_ge _ _ _ (by omega)
            (by rw [padCellsTo_length]; omega)]
          rfl
      · rw [padRowsTo_getD_ge _ _ _ (by omega) hRlt]
        rw [padCellsTo_getD_ge _ _ _ (by exact Nat.zero_le _)
          (by rw [padCellsTo_length]; omega)]
        rfl
    have hlt2 : col.toNat - 1 < ((padCellsTo ((padRowsTo grid
        row.toNat).getD (row.toNat - 1) emptyRow).c col.toNat).set
        (col.toNat - 1) cell).length := by
      rw [List.length_set, padCellsTo_length]
      omega
    have hgd := set_getD_same_c (padCellsTo ((padRowsTo grid
      row.toNat).getD (row.toNat - 1) emptyRow).c col.toNat)
      (col.toNat - 1) cell (by rw [padCellsTo_length]; omega)
    have hupd : (updateAt (padRowsTo grid row.toNat) (row.toNat - 1)
        (fun rw =>
          if ((padCellsTo rw.c col.toNat).getD (col.toNat - 1)
              emptyC).hasValue
          then { rw with c := padCellsTo rw.c col.toNat }
          else { rw with c := (padCellsTo rw.c col.toNat).set (col.toNat - 1) cell })).getD
          (row.toNat - 1) emptyRow
        = { (padRowsTo grid row.toNat).getD (row.toNat - 1) emptyRow with
            c := (padCellsTo ((padRowsTo grid row.toNat).getD (row.toNat - 1)
              emptyRow).c col.toNat).set (col.toNat - 1) cell } := by
      rw [updateAt_getD_self _ _ _ _ hRlt]
      show (if ((padCellsTo ((padRowsTo grid row.toNat).getD (row.toNat - 1)
              emptyRow).c col.toNat).getD (col.toNat - 1)
              emptyC).hasValue = true
          then _ else _) = _
      rw [hval0, if_neg (by simp)]
    rw [hstep]
    apply cellAt_of
    · rw [updateAt_length]
      omega
    · rw [hupd]
      exact hlt2
    · rw [hupd]
      exact hgd

theorem C6_overlay_first_wins_witness :
    CellNameToCoordinates "B2" = Except.ok ((2 : Int), (2 : Int)) ∧
    cellAt (stepR0 [{ r := 1 }, { r := 2, c := [{ r := "A2", v := "5" },
        { r := "B2", v := "Y" }] }] { r := "B2", v := "X" })
      (2 : Int).toNat (2 : Int).toNat = some { r := "B2", v := "Y" } :=
  ⟨by decide,
   (C6_overlay_first_wins.1 [{ r := 1 }, { r := 2, c := [{ r := "A2", v := "5" },
        { r := "B2", v := "Y" }] }] { r := "B2", v := "X" } 2 2 (by decide)).1
     { r := "B2", v := "Y" } (by decide) (by decide)⟩

/-! ## C7: merge-cell adjustment under row/column insertion and deletion -/

/-- Go `strings.Split(s, ":")` on the character list: split at every
colon; always returns at least one part. -/
def splitOnColon : List Char → List (List Char)
  | [] => [[]]
  | c :: rest =>
    match splitOnColon rest with
    | [] => if c = ':' then [[], []] else [[c]]
    | h :: t => if c = ':' then [] :: h :: t else (c :: h) :: t

/-- `cellRefsToCoordinates` (`lib.go`): the two corner cells of a range
to four coordinates, propagating the first parse error. -/
def cellRefsToCoordinates (firstCell lastCell : String) :
    Except Err (Int × Int × Int × Int) :=
  match CellNameToCoordinates firstCell with
  | .error e => .error e
  | .ok (x1, y1) =>
    match CellNameToCoordinates lastCell with
    | .error e => .error e
    | .ok (x2, y2) => .ok (x1, y1, x2, y2)

/-- `rangeRefToCoordinates` (`lib.go`): strip `$`, split on `:`, require at
least two parts, and parse the first two as cell names. -/
def rangeRefToCoordinates (ref : String) : Except Err (Int × Int × Int × Int) :=
  let rng := splitOnColon (ref.toList.filter (fun ch => ch ≠ '$'))
  if rng.length < 2 then .error .parameterInvalid
  else cellRefsToCoordinates (rng.getD 0 []).asString (rng.getD 1 []).asString

/-- `coordinatesToRangeRef` (`lib.go`) on four coordinates: render both
corners and join with `:`. -/
def coordinatesToRangeRef (x1 y1 x2 y2 : Int) : Except Err String :=
  match CoordinatesToCellName x1 y1 with
  | .error e => .error e
  | .ok firstCell =>
    match CoordinatesToCellName x2 y2 with
    | .error e => .error e
    | .ok lastCell => .ok (firstCell ++ ":" ++ lastCell)

/-- Modelled from the spec (§4.4): axis of a structural adjustment
(`adjustDirection` with values `rows` / `columns`). -/
inductive AdjustDir where
  | rows
  | columns
deriving Repr, DecidableEq

/-- A merge-cell entry (`xlsxMergeCell`): a range reference string. -/
structure XlsxMergeCell where
  ref : String
deriving Repr, DecidableEq

/-- Modelled from the spec (§4.4, with the §8 test scenarios of
`src/adjust_test.go` as the authoritative contract): shift one pair of
corner coordinates on the edited axis.  Insertion (`offset ≥ 0`): a range
starting at or after the position shifts whole; one merely covering the
position grows at its far end.  Deletion: a range covering the position
shrinks at its far end; one strictly after the position shifts whole. -/
def adjustMergeCellsHelper (p1 p2 num offset : Int) : Int × Int :=
  let s := if p2 < p1 then (p2, p1) else (p1, p2)
  if 0 ≤ offset then
    if num ≤ s.1 then (s.1 + offset, s.2 + offset)
    else if num ≤ s.2 then (s.1, s.2 + offset)
    else s
  else
    if s.1 ≤ num ∧ num ≤ s.2 then (s.1, s.2 + offset)
    else if num < s.1 then (s.1 + offset, s.2 + offset)
    else s

/-- Modelled from the spec (§4.4): adjust one merge entry.  A range whose
corners on the edited axis both equal the deleted position is dropped
(`none`); otherwise the corners are shifted and the range is recomposed. -/
def adjustMergeCellEntry (dir : AdjustDir) (num offset : Int)
    (mc : XlsxMergeCell) : Except Err (Option XlsxMergeCell) :=
  match rangeRefToCoordinates mc.ref with
  | .error e => .error e
  | .ok (x1, y1, x2, y2) =>
    match dir with
    | .rows =>
      if y1 = num ∧ y2 = num ∧ offset < 0 then .ok none
      else
        match adjustMergeCellsHelper y1 y2 num offset with
        | (b1, b2) =>
          match coordinatesToRangeRef x1 b1 x2 b2 with
          | .error e => .error e
          | .ok newRef => .ok (some { ref := newRef })
    | .columns =>
      if x1 = num ∧ x2 = num ∧ offset < 0 then .ok none
      else
        match adjustMergeCellsHelper x1 x2 num offset with
        | (b1, b2) =>
          match coordinatesToRangeRef b1 y1 b2 y2 with
          | .error e => .error e
          | .ok newRef => .ok (some { ref := newRef })

/-- Modelled from the spec (§4.4): `adjustMergeCells` over the whole
merge-cell collection, fail-fast on the first parse error, dropped
entries removed from the collection. -/
def adjustMergeCells (cells : List XlsxMergeCell) (dir : AdjustDir)
    (num offset : Int) : Except Err (List XlsxMergeCell) :=
  match cells with
  | [] => .ok []
  | mc :: rest =>
    match adjustMergeCellEntry dir num offset mc with
    | .error e => .error e
    | .ok none => adjustMergeCells rest dir num offset
    | .ok (some mc2) =>
      match adjustMergeCells rest dir num offset with
      | .error e => .error e
      | .ok rest2 => .ok (mc2 :: rest2)

theorem colNumLoop_two : colNumLoop 2 [] = ['B'] := by
  rw [colNumLoop, dif_neg (by norm_num)]
  norm_num
  rw [colNumLoop, dif_pos rfl]

theorem itoa_two : itoa 2 = ['2'] := by
  rw [itoa, dif_pos (by norm_num)]

theorem itoa_three : itoa 3 = ['3'] := by
  rw [itoa, dif_pos (by norm_num)]

theorem coordName_one_two : CoordinatesToCellName 1 2 = .ok "A2" := by
  have h := (cell_codec_core 1 2 (by norm_num) (by norm_num [MaxColumns])
    (by norm_num) (by norm_num [TotalRows])).1
  have e1 : (1 : Int).toNat = 1 := rfl
  have e2 : (2 : Int).toNat = 2 := rfl
  rw [h, e1, e2, colNumLoop_one, itoa_two]
  decide

theorem coordName_two_two : CoordinatesToCellName 2 2 = .ok "B2" := by
  have h := (cell_codec_core 2 2 (by norm_num) (by norm_num [MaxColumns])
    (by norm_num) (by norm_num [TotalRows])).1
  have e2 : (2 : Int).toNat = 2 := rfl
  rw [h, e2, colNumLoop_two, itoa_two]
  decide

theorem coordName_one_three : CoordinatesToCellName 1 3 = .ok "A3" := by
  have h := (cell_codec_core 1 3 (by norm_num) (by norm_num [MaxColumns])
    (by norm_num) (by norm_num [TotalRows])).1
  have e1 : (1 : Int).toNat = 1 := rfl
  have e3 : (3 : Int).toNat = 3 := rfl
  rw [h, e1, e3, colNumLoop_one, itoa_three]
  decide

theorem rangeRef_A2B2 : coordinatesToRangeRef 1 2 2 2 = .ok "A2:B2" := by
  rw [coordinatesToRangeRef]
  simp only [coordName_one_two, coordName_two_two]
  rfl

theorem rangeRef_A2A3 : coordinatesToRangeRef 1 2 1 3 = .ok "A2:A3" := by
  rw [coordinatesToRangeRef]
  simp only [coordName_one_two, coordName_one_three]
  rfl

theorem adjustMergeCells_singleton_some (dir : AdjustDir) (num offset : Int)
    (mc mc2 : XlsxMergeCell)
    (h : adjustMergeCellEntry dir num offset mc = .ok (some mc2)) :
    adjustMergeCells [mc] dir num offset = .ok [mc2] := by
  simp only [adjustMergeCells, h]

theorem adjustMergeCells_singleton_none (dir : AdjustDir) (num offset : Int)
    (mc : XlsxMergeCell)
    (h : adjustMergeCellEntry dir num offset mc = .ok none) :
    adjustMergeCells [mc] dir num offset = .ok [] := by
  simp only [adjustMergeCells, h]

theorem entry_row_del_two :
    adjustMergeCellEntry .rows 2 (-1) ⟨"A2:B3"⟩ = .ok (some ⟨"A2:B2"⟩) := by
  have hp : rangeRefToCoordinates (XlsxMergeCell.mk "A2:B3").ref
      = Except.ok ((1 : Int), (2 : Int), (2 : Int), (3 : Int)) := by decide
  have hq : adjustMergeCellsHelper 2 3 2 (-1) = ((2 : Int), (2 : Int)) := by decide
  rw [adjustMergeCellEntry]
  simp only [hp]
  rw [if_neg (by norm_num)]
  simp only [hq, rangeRef_A2B2]

theorem entry_row_del_three :
    adjustMergeCellEntry .rows 3 (-1) ⟨"A2:B3"⟩ = .ok (some ⟨"A2:B2"⟩) := by
  have hp : rangeRefToCoordinates (XlsxMergeCell.mk "A2:B3").ref
      = Except.ok ((1 : Int), (2 : Int), (2 : Int), (3 : Int)) := by decide
  have hq : adjustMergeCellsHelper 2 3 3 (-1) = ((2 : Int), (2 : Int)) := by decide
  rw [adjustMergeCellEntry]
  simp only [hp]
  rw [if_neg (by norm_num)]
  simp only [hq, rangeRef_A2B2]

theorem entry_col_del_one :
    adjustMergeCellEntry .columns 1 (-1) ⟨"A2:B3"⟩ = .ok (some ⟨"A2:A3"⟩) := by
  have hp : rangeRefToCoordinates (XlsxMergeCell.mk "A2:B3").ref
      = Except.ok ((1 : Int), (2 : Int), (2 : Int), (3 : Int)) := by decide
  have hq : adjustMergeCellsHelper 1 2 1 (-1) = ((1 : Int), (1 : Int)) := by decide
  rw [adjustMergeCellEntry]
  simp only [hp]
  rw [if_neg (by norm_num)]
  simp only [hq, rangeRef_A2A3]

theorem entry_col_del_two :
    adjustMergeCellEntry .columns 2 (-1) ⟨"A2:B3"⟩ = .ok (some ⟨"A2:A3"⟩) := by
  have hp : rangeRefToCoordinates (XlsxMergeCell.mk "A2:B3").ref
      = Except.ok ((1 : Int), (2 : Int), (2 : Int), (3 : Int)) := by decide
  have hq : adjustMergeCellsHelper 1 2 2 (-1) = ((1 : Int), (1 : Int)) := by decide
  rw [adjustMergeCellEntry]
  simp only [hp]
  rw [if_neg (by norm_num)]
  simp only [hq, rangeRef_A2A3]

theorem entry_drop_row (ref : String) (x1 y1 x2 y2 num : Int)
    (hp : rangeRefToCoordinates ref = .ok (x1, y1, x2, y2))
    (h1 : y1 = num) (h2 : y2 = num) :
    adjustMergeCellEntry .rows num (-1) ⟨ref⟩ = .ok none := by
  rw [adjustMergeCellEntry]
  simp only [hp]
  rw [if_pos ⟨h1, h2, by norm_num⟩]

theorem entry_drop_col (ref : String) (x1 y1 x2 y2 num : Int)
    (hp : rangeRefToCoordinates ref = .ok (x1, y1, x2, y2))
    (h1 : x1 = num) (h2 : x2 = num) :
    adjustMergeCellEntry .columns num (-1) ⟨ref⟩ = .ok none := by
  rw [adjustMergeCellEntry]
  simp only [hp]
  rw [if_pos ⟨h1, h2, by norm_num⟩]

/-- **C7**: deleting one line (`offset = -1`) adjusts merge ranges as the
authoritative test scenarios require: `A2:B3` becomes `A2:B2` under
deletion of row 2 or row 3, and `A2:A3` under deletion of column 1 or
column 2; and every range spanning exactly the deleted line — both
corners on the edited axis equal to the deleted position — is removed
entirely from the collection, in particular `A2:B2` under deletion of
row 2 and `B2:B2` under deletion of column 2 leave zero entries. -/
theorem C7_merge_adjust_deletion :
    adjustMergeCells [⟨"A2:B3"⟩] .rows 2 (-1) = .ok [⟨"A2:B2"⟩] ∧
    adjustMergeCells [⟨"A2:B3"⟩] .rows 3 (-1) = .ok [⟨"A2:B2"⟩] ∧
    adjustMergeCells [⟨"A2:B3"⟩] .columns 1 (-1) = .ok [⟨"A2:A3"⟩] ∧
    adjustMergeCells [⟨"A2:B3"⟩] .columns 2 (-1) = .ok [⟨"A2:A3"⟩] ∧
    (∀ (ref : String) (x1 y1 x2 y2 num : Int),
      rangeRefToCoordinates ref = .ok (x1, y1, x2, y2) →
      y1 = num → y2 = num →
      adjustMergeCells [⟨ref⟩] .rows num (-1) = .ok []) ∧
    (∀ (ref : String) (x1 y1 x2 y2 num : Int),
      rangeRefToCoordinates ref = .ok (x1, y1, x2, y2) →
      x1 = num → x2 = num →
      adjustMergeCells [⟨ref⟩] .columns num (-1) = .ok []) ∧
    adjustMergeCells [⟨"A2:B2"⟩] .rows 2 (-1) = .ok [] ∧
    adjustMergeCells [⟨"B2:B2"⟩] .columns 2 (-1) = .ok [] := by
  refine ⟨adjustMergeCells_singleton_some _ _ _ _ _ entry_row_del_two,
    adjustMergeCells_singleton_some _ _ _ _ _ entry_row_del_three,
    adjustMergeCells_singleton_some _ _ _ _ _ entry_col_del_one,
    adjustMergeCells_singleton_some _ _ _ _ _ entry_col_del_two,
    ?_, ?_, ?_, ?_⟩
  · intro ref x1 y1 x2 y2 num hp h1 h2
    exact adjustMergeCells_singleton_none _ _ _ _
      (entry_drop_row ref x1 y1 x2 y2 num hp h1 h2)
  · intro ref x1 y1 x2 y2 num hp h1 h2
    exact adjustMergeCells_singleton_none _ _ _ _
      (entry_drop_col ref x1 y1 x2 y2 num hp h1 h2)
  · exact adjustMergeCells_singleton_none _ _ _ _
      (entry_drop_row "A2:B2" 1 2 2 2 2 (by decide) rfl rfl)
  · exact adjustMergeCells_singleton_none _ _ _ _
      (entry_drop_col "B2:B2" 2 2 2 2 2 (by decide) rfl rfl)

theorem C7_merge_adjust_deletion_witness :
    rangeRefToCoordinates "C4:C4" = Except.ok ((3 : Int), 4, 3, 4) ∧
    adjustMergeCells [⟨"C4:C4"⟩] .rows 4 (-1) = .ok [] :=
  ⟨by decide,
   C7_merge_adjust_deletion.2.2.2.2.1 "C4:C4" 3 4 3 4 4 (by decide) rfl rfl⟩

/-! ## C8 and C10: the streaming row writer -/

/-- Modelled from the spec: `MaxColumnWidth`, the width ceiling checked by
`SetColWidth`; defined in a source file not provided (its value does not
matter to the claims). -/
def MaxColumnWidth : Int := 255

/-- Modelled from the spec: `MaxRowHeight`, the height ceiling checked by
`RowOpts.marshalAttrs`; defined in a source file not provided. -/
def MaxRowHeight : Int := 409

/-- Go `xml.Header`. -/
def xmlHeader : String := "<?xml version=\"1.0\" encoding=\"UTF-8\" standalone=\"yes\"?>\n"

/-- Modelled from the spec: `templateNamespaceIDMap`, the worksheet
namespace attribute string, defined in a source file not provided (its
value does not matter to the claims, which treat it symbolically). -/
def templateNamespaceIDMap : String :=
  " xmlns=\"http://schemas.openxmlformats.org/spreadsheetml/2006/main\">"

/-- The serialized contents of the `xlsxWorksheet` struct fields that
`bulkAppendFields` (reflection-driven in Go) emits for each index range
used by the stream writer: fields 2-5, 8-15, 17-38 and 40.  The claims
treat these four serialized groups symbolically. -/
structure WsModel where
  f2to5 : String := ""
  f8to15 : String := ""
  f17to38 : String := ""
  f40 : String := ""
deriving Repr, DecidableEq

/-- The mutable state of a `StreamWriter`: the `sheetWritten` flag, the
buffered `<col>` declarations, the raw serialized output, and the
merge-cell and table-part buffers. -/
structure SWState where
  sheetWritten : Bool := false
  cols : String := ""
  rawData : String := ""
  mergeCellsCount : Int := 0
  mergeCells : String := ""
  tableParts : String := ""
deriving Repr, DecidableEq

/-- `Cell`, the explicit cell wrapper accepted by `SetRow`; its Go `Value`
field (an `interface{}`) is modelled as the string it serializes to. -/
structure Cell where
  styleID : Int := 0
  formula : String := ""
  value : String := ""
deriving Repr, DecidableEq

/-- `RowOpts`: row options for `SetRow`.  The Go `Height` field is a
`float64`; the claims do not depend on fractional heights, so it is
modelled as an integer. -/
structure RowOpts where
  height : Int := 0
  hidden : Bool := false
  styleID : Int := 0
deriving Repr, DecidableEq

/-- `NewStreamWriter` (`part_001`): fresh state, raw data primed with the
XML header, the `<worksheet` opening and worksheet fields 2-5. -/
def newStreamWriter (ws : WsModel) : SWState :=
  { rawData := xmlHeader ++ "<worksheet" ++ templateNamespaceIDMap ++ ws.f2to5 }

/-- `RowOpts.marshalAttrs` (`part_001`): serialized row attributes, with
the `MaxRowHeight` ceiling check. -/
def marshalAttrs (r : RowOpts) : Except Err String :=
  if r.height > MaxRowHeight then .error .maxRowHeight
  else
    .ok ((if r.styleID > 0 then
        " s=\"" ++ (itoa r.styleID.toNat).asString ++ "\" customFormat=\"true\""
      else "")
      ++ (if r.height > 0 then
        " ht=\"" ++ (itoa r.height.toNat).asString ++ "\" customHeight=\"true\""
      else "")
      ++ (if r.hidden then " hidden=\"true\"" else ""))

/-- `parseRowOpts` (`part_001`): the last option wins, defaulting to the
zero value. -/
def parseRowOpts (opts : List RowOpts) : RowOpts :=
  opts.foldl (fun _ o => o) {}

/-- `setCellFormula` (`part_001`). -/
def setCellFormula (c : XlsxC) (formula : String) : XlsxC :=
  if formula ≠ "" then { c with f := some formula } else c

/-- `setCellValFunc` (`part_001`) for string values: `setCellStr` (whose
defining source file is not provided) is modelled per the spec's cell
model as setting the `str` type and the literal value. -/
def setCellValFunc (c : XlsxC) (val : String) : XlsxC :=
  { c with t := "str", v := val }

/-- `writeCell` (`part_001`): one serialized `<c>` element; XML text
escaping is modelled as the identity. -/
def writeCell (c : XlsxC) : String :=
  "<c" ++ " r=\"" ++ c.r ++ "\""
    ++ (if c.s ≠ 0 then " s=\"" ++ (itoa c.s.toNat).asString ++ "\"" else "")
    ++ (if c.t ≠ "" then " t=\"" ++ c.t ++ "\"" else "")
    ++ ">"
    ++ (match c.f with
        | some f => "<f>" ++ f ++ "</f>"
        | none => "")
    ++ (if c.v ≠ "" then "<v>" ++ c.v ++ "</v>" else "")
    ++ "</c>"

/-- The per-value loop of `SetRow` (`part_001`): `nil` values are skipped
(the column index still advances), each other value is rendered at column
`col + i`; a failing column conversion aborts without closing the row,
the normal exit closes the row. -/
def setRowCells (col row sty : Int) : Nat → List (Option Cell) → SWState →
    SWState × Option Err
  | _, [], sw => ({ sw with rawData := sw.rawData ++ "</row>" }, none)
  | i, none :: rest, sw => setRowCells col row sty (i + 1) rest sw
  | i, some v :: rest, sw =>
    match CoordinatesToCellName (col + i) row with
    | .error e => (sw, some e)
    | .ok ref =>
      let c : XlsxC := { r := ref, s := sty }
      let c := { c with s := v.styleID }
      let c := setCellFormula c v.formula
      let c := setCellValFunc c v.value
      setRowCells col row sty (i + 1) rest
        { sw with rawData := sw.rawData ++ writeCell c }

/-- `SetRow` (`part_001`): parse the anchor cell; on the first successful
call emit the buffered `<cols>` block (if any) and open `<sheetData>`,
setting `sheetWritten`; marshal the row attributes, open the `<row>`
element and run the per-value loop. -/
def setRowSW (sw : SWState) (cell : String) (values : List (Option Cell))
    (opts : List RowOpts) : SWState × Option Err :=
  match CellNameToCoordinates cell with
  | .error e => (sw, some e)
  | .ok (col, row) =>
    let sw1 := if sw.sheetWritten then sw
      else
        { sw with
          rawData := sw.rawData
            ++ (if 0 < sw.cols.length then "<cols>" ++ sw.cols ++ "</cols>" else "")
            ++ "<sheetData>",
          sheetWritten := true }
    let options := parseRowOpts opts
    match marshalAttrs options with
    | .error e => (sw1, some e)
    | .ok attrs =>
      setRowCells col row options.styleID 0 values
        { sw1 with rawData := sw1.rawData
            ++ "<row r=\"" ++ (itoa row.toNat).asString ++ "\"" ++ attrs ++ ">" }

/-- `SetColWidth` (`part_001`): rejected with `ErrStreamSetColWidth` once
`sheetWritten` is set; otherwise column bounds and width ceiling are
checked, the bounds swapped if inverted, and a `<col>` declaration is
appended to the pending `cols` buffer.  The Go `width` is a `float64`
printed with `%f`; it is modelled as an integer. -/
def setColWidthSW (sw : SWState) (mn mx width : Int) : SWState × Option Err :=
  if sw.sheetWritten then (sw, some .streamSetColWidth)
  else if mn < MinColumns ∨ mn > MaxColumns ∨ mx < MinColumns ∨ mx > MaxColumns then
    (sw, some .columnNumber)
  else if width > MaxColumnWidth then (sw, some .columnWidth)
  else
    let p := if mn > mx then (mx, mn) else (mn, mx)
    ({ sw with cols := sw.cols
        ++ "<col min=\"" ++ (itoa p.1.toNat).asString
        ++ "\" max=\"" ++ (itoa p.2.toNat).asString
        ++ "\" width=\"" ++ (itoa width.toNat).asString
        ++ ".000000\" customWidth=\"1\"/>" }, none)

/-- `MergeCell` (`part_001`): validate the two corners, count the entry
and buffer its serialized form. -/
def mergeCellSW (sw : SWState) (hCell vCell : String) : SWState × Option Err :=
  match cellRefsToCoordinates hCell vCell with
  | .error e => (sw, some e)
  | .ok _ =>
    ({ sw with
        mergeCellsCount := sw.mergeCellsCount + 1,
        mergeCells := sw.mergeCells
          ++ "<mergeCell ref=\"" ++ hCell ++ ":" ++ vCell ++ "\"/>" }, none)

/-- `Flush` (`part_001`): open `<sheetData>` if no row was ever written,
close it, then emit worksheet fields 8-15, the merge-cell block (only when
entries were recorded), fields 17-38, the table parts and field 40, and
close the worksheet.  The underlying buffer flush (file I/O) is modelled
as succeeding. -/
def flushSW (sw : SWState) (ws : WsModel) : SWState × Option Err :=
  let sw1 := if sw.sheetWritten then sw
    else { sw with rawData := sw.rawData ++ "<sheetData>", sheetWritten := true }
  let mc := if sw1.mergeCellsCount > 0 then
      "<mergeCells count=\"" ++ (itoa sw1.mergeCellsCount.toNat).asString ++ "\">"
        ++ sw1.mergeCells ++ "</mergeCells>"
    else ""
  ({ sw1 with rawData := sw1.rawData ++ "</sheetData>" ++ ws.f8to15 ++ mc
      ++ ws.f17to38 ++ sw1.tableParts ++ ws.f40 ++ "</worksheet>" }, none)

/-- The stream-writer operations between creation and `Flush`. -/
inductive SWOp where
  | setRow (cell : String) (values : List (Option Cell)) (opts : List RowOpts)
  | setColWidth (mn mx width : Int)
  | mergeCell (hCell vCell : String)

/-- One operation applied to the writer state. -/
def applySWOp (sw : SWState) : SWOp → SWState × Option Err
  | .setRow cell values opts => setRowSW sw cell values opts
  | .setColWidth mn mx width => setColWidthSW sw mn mx width
  | .mergeCell hCell vCell => mergeCellSW sw hCell vCell

/-- A sequence of operations applied to the writer state (each call
mutates the writer whether or not it reports an error, as in Go). -/
def runOps (sw : SWState) : List SWOp → SWState
  | [] => sw
  | op :: rest => runOps (applySWOp sw op).1 rest

theorem setRowCells_sheetWritten (col row sty : Int) :
    ∀ (i : Nat) (values : List (Option Cell)) (sw : SWState),
      (setRowCells col row sty i values sw).1.sheetWritten = sw.sheetWritten := by
  intro i values
  induction values generalizing i with
  | nil => intro sw; rfl
  | cons v rest ih =>
    intro sw
    match v with
    | none => exact ih (i + 1) sw
    | some v =>
      rw [setRowCells]
      cases h : CoordinatesToCellName (col + i) row with
      | error e => rfl
      | ok ref => exact ih (i + 1) _

theorem setRowSW_sheetWritten (sw : SWState) (cell : String)
    (values : List (Option Cell)) (opts : List RowOpts)
    (h : (setRowSW sw cell values opts).2 = none) :
    (setRowSW sw cell values opts).1.sheetWritten = true := by
  rw [setRowSW] at h ⊢
  cases hcc : CellNameToCoordinates cell with
  | error e =>
    rw [hcc] at h
    cases h
  | ok cr =>
    obtain ⟨col, row⟩ := cr
    rw [hcc] at h
    simp only [] at h ⊢
    cases hma : marshalAttrs (parseRowOpts opts) with
    | error e =>
      rw [hma] at h
      cases h
    | ok attrs =>
      rw [setRowCells_sheetWritten]
      by_cases hw : sw.sheetWritten
      · rw [if_pos hw]
        exact hw
      · rw [if_neg hw]

theorem applySWOp_sheetWritten (sw : SWState) (op : SWOp)
    (h : sw.sheetWritten = true) : (applySWOp sw op).1.sheetWritten = true := by
  match op with
  | .setRow cell values opts =>
    rw [applySWOp, setRowSW]
    cases hcc : CellNameToCoordinates cell with
    | error e => exact h
    | ok cr =>
      obtain ⟨col, row⟩ := cr
      simp only
      rw [if_pos h]
      cases hma : marshalAttrs (parseRowOpts opts) with
      | error e => exact h
      | ok attrs => rw [setRowCells_sheetWritten]; exact h
  | .setColWidth mn mx width =>
    rw [applySWOp, setColWidthSW, if_pos h]
    exact h
  | .mergeCell hCell vCell =>
    rw [applySWOp, mergeCellSW]
    cases hc : cellRefsToCoordinates hCell vCell with
    | error e => exact h
    | ok c => exact h

theorem runOps_sheetWritten (ops : List SWOp) :
    ∀ (sw : SWState), sw.sheetWritten = true →
      (runOps sw ops).sheetWritten = true := by
  induction ops with
  | nil => intro sw h; exact h
  | cons op rest ih =>
    intro sw h
    rw [runOps]
    exact ih _ (applySWOp_sheetWritten sw op h)

/-- **C8**: a completed (error-free) `SetRow` leaves the writer with
`sheetWritten` set (the sheet-data element has been opened); and on any
writer state with `sheetWritten` set, after any further sequence of
operations, `SetColWidth` returns the `ErrStreamSetColWidth` sequencing
error with the state unchanged — no column-width declaration is
recorded. -/
theorem C8_set_col_width_after_set_row :
    (∀ (sw : SWState) (cell : String) (values : List (Option Cell))
        (opts : List RowOpts),
      (setRowSW sw cell values opts).2 = none →
      (setRowSW sw cell values opts).1.sheetWritten = true) ∧
    (∀ (sw : SWState), sw.sheetWritten = true →
      ∀ (ops : List SWOp) (mn mx width : Int),
        setColWidthSW (runOps sw ops) mn mx width
          = (runOps sw ops, some .streamSetColWidth)) := by
  refine ⟨setRowSW_sheetWritten, ?_⟩
  intro sw h ops mn mx width
  rw [setColWidthSW, if_pos (runOps_sheetWritten ops sw h)]

theorem C8_set_col_width_after_set_row_witness :
    (setRowSW (newStreamWriter ⟨"", "", "", ""⟩) "A1" [] []).2 = none ∧
    setColWidthSW
        (runOps (setRowSW (newStreamWriter ⟨"", "", "", ""⟩) "A1" [] []).1
          [.mergeCell "A1" "B2"]) 1 2 10
      = (runOps (setRowSW (newStreamWriter ⟨"", "", "", ""⟩) "A1" [] []).1
          [.mergeCell "A1" "B2"], some .streamSetColWidth) := by
  have h1 : (setRowSW (newStreamWriter ⟨"", "", "", ""⟩) "A1" [] []).2 = none := rfl
  exact ⟨h1, C8_set_col_width_after_set_row.2 _
    (C8_set_col_width_after_set_row.1 _ "A1" [] [] h1) [.mergeCell "A1" "B2"] 1 2 10⟩

/-- **C10**: `Flush` on a writer on which `SetRow` was never called still
succeeds (no error), and the emitted document is complete: the XML header
and worksheet opening, worksheet fields 2-5, an empty sheet-data element
`<sheetData></sheetData>` with zero rows (opened and immediately closed by
`Flush` itself), fields 8-15, no merge-cell block, fields 17-38, no table
parts, field 40, and the closing worksheet tag. -/
theorem C10_flush_without_rows :
    ∀ ws : WsModel,
      flushSW (newStreamWriter ws) ws
        = ({ sheetWritten := true,
             cols := "",
             rawData := xmlHeader ++ "<worksheet" ++ templateNamespaceIDMap
               ++ ws.f2to5 ++ "<sheetData>" ++ "</sheetData>" ++ ws.f8to15
               ++ ws.f17to38 ++ ws.f40 ++ "</worksheet>",
             mergeCellsCount := 0,
             mergeCells := "",
             tableParts := "" }, none) := by
  intro ws
  simp only [flushSW, newStreamWriter]
  norm_num [append_empty_str]

/-! ## C9: unzip size ceiling during workbook open -/

/-- Modelled from the spec: the default `UnzipSizeLimit` constant
(`1000 << 24` bytes), defined in a source file not provided. -/
def defaultUnzipSizeLimit : Int := 1000 * 2 ^ 24

/-- Modelled from the spec: the `StreamChunkSize` constant (`1 << 24`
bytes), defined in a source file not provided. -/
def streamChunkSize : Int := 2 ^ 24

/-- Modelled from the spec: the canonical content-types part path,
defined in a source file not provided. -/
def defaultXMLPathContentTypes : String := "[Content_Types].xml"

/-- Modelled from the spec: the canonical shared-strings part path,
defined in a source file not provided. -/
def defaultXMLPathSharedStrings : String := "xl/sharedStrings.xml"

/-- One entry of the zip archive: name, uncompressed size (Go `int64`),
directory flag and extracted content. -/
structure ZipEntry where
  name : String := ""
  size : Int := 0
  isDir : Bool := false
  content : String := ""
deriving Repr, DecidableEq

/-- `Options` (`excelize.go`), restricted to the fields the open path
reads. -/
structure OptionsM where
  password : String := ""
  unzipSizeLimit : Int := 0
  unzipXMLSizeLimit : Int := 0
deriving Repr, DecidableEq

/-- The populated workbook as far as `OpenReader` builds it from the zip:
the worksheet count and the package part map (as an association list). -/
structure FileM where
  sheetCount : Int := 0
  pkg : List (String × String) := []
deriving Repr, DecidableEq

/-- Lower-casing of a character list. -/
def lowerChars (l : List Char) : List Char := l.map Char.toLower

/-- `strings.HasPrefix` on character lists. -/
def strHasPre : List Char → List Char → Bool
  | [], _ => true
  | _ :: _, [] => false
  | a :: ps, b :: ss => a = b && strHasPre ps ss

/-- `strings.EqualFold`, modelled as equality after lower-casing. -/
def equalFold (s t : String) : Bool :=
  lowerChars s.toList = lowerChars t.toList

/-- The `docPart` rename of `ReadZipReader` (`lib.go`): the two canonical
part names are substituted by lower-cased lookup. -/
def docPartRename (fileName : String) : String :=
  if (lowerChars fileName.toList).asString = "[content_types].xml" then
    defaultXMLPathContentTypes
  else if (lowerChars fileName.toList).asString = "xl/sharedstrings.xml" then
    defaultXMLPathSharedStrings
  else fileName

/-- `strings.ReplaceAll(name, "\\", "/")`. -/
def replaceBackslash (s : String) : String :=
  (s.toList.map (fun c => if c = '\\' then '/' else c)).asString

/-- The entry loop of `ReadZipReader` (`lib.go` 41-75): the running
`unzipSize` total grows by each entry's size and is checked against the
limit before the entry is processed; on breach the partial file list and
worksheet count collected so far are returned with the
`UnzipSizeLimitExceeded` error and the remaining entries are never
examined.  Oversized shared-strings and worksheet parts spill to a
temporary file (the file I/O is modelled as succeeding) and are skipped
from the in-memory list; worksheet parts are counted either way. -/
def readZipLoop (limit xmlLimit : Int) :
    List ZipEntry → List (String × String) → Int → Int →
      List (String × String) × Int × Option Err
  | [], fileList, worksheets, _ => (fileList, worksheets, none)
  | v :: rest, fileList, worksheets, unzipSize =>
    let fileSize := v.size
    let unzipSize := unzipSize + fileSize
    if unzipSize > limit then
      (fileList, worksheets, some (.unzipSizeLimitExceeded limit))
    else
      let fileName := docPartRename (replaceBackslash v.name)
      if equalFold fileName defaultXMLPathSharedStrings ∧ fileSize > xmlLimit then
        readZipLoop limit xmlLimit rest fileList worksheets unzipSize
      else if strHasPre "xl/worksheets/sheet".toList (lowerChars fileName.toList) then
        if fileSize > xmlLimit ∧ ¬ v.isDir then
          readZipLoop limit xmlLimit rest fileList (worksheets + 1) unzipSize
        else
          readZipLoop limit xmlLimit rest ((fileName, v.content) :: fileList)
            (worksheets + 1) unzipSize
      else
        readZipLoop limit xmlLimit rest ((fileName, v.content) :: fileList)
          worksheets unzipSize

/-- `ReadZipReader` (`lib.go`): run the entry loop from the empty state. -/
def ReadZipReader (entries : List ZipEntry) (limit xmlLimit : Int) :
    List (String × String) × Int × Option Err :=
  readZipLoop limit xmlLimit entries [] 0 0

/-- `parseOptions` (`excelize.go`): the last options value wins,
defaulting to the zero value. -/
def parseOptionsM (opts : List OptionsM) : OptionsM :=
  opts.foldl (fun _ o => o) {}

/-- The options-defaulting block of `OpenReader` (`excelize.go` 145-160):
zero limits are replaced by the library defaults, reconciled against each
other, and an `UnzipXMLSizeLimit` exceeding `UnzipSizeLimit` rejects the
open with `ErrOptionsUnzipSizeLimit`. -/
def resolveOptionsM (opts : List OptionsM) : Except Err OptionsM :=
  let o := parseOptionsM opts
  let o := if o.unzipSizeLimit = 0 then
      let lim := defaultUnzipSizeLimit
      let lim := if o.unzipXMLSizeLimit > lim then o.unzipXMLSizeLimit else lim
      { o with unzipSizeLimit := lim }
    else o
  let o := if o.unzipXMLSizeLimit = 0 then
      let lim := streamChunkSize
      let lim := if o.unzipSizeLimit < lim then o.unzipSizeLimit else lim
      { o with unzipXMLSizeLimit := lim }
    else o
  if o.unzipXMLSizeLimit > o.unzipSizeLimit then .error .optionsUnzipSizeLimit
  else .ok o

/-- `OpenReader` (`excelize.go` 138-180) on an already-parsed, unencrypted
zip archive: resolve the options, extract the archive, and either populate
the workbook or return the extraction error with no workbook at all. -/
def openReaderM (entries : List ZipEntry) (opts : List OptionsM) :
    Except Err FileM :=
  match resolveOptionsM opts with
  | .error e => .error e
  | .ok o =>
    match ReadZipReader entries o.unzipSizeLimit o.unzipXMLSizeLimit with
    | (_, _, some e) => .error e
    | (fileList, sheetCount, none) => .ok { sheetCount := sheetCount, pkg := fileList }

/-- Total size of a list of zip entries. -/
def sizeSum (entries : List ZipEntry) : Int :=
  entries.foldl (fun acc v => acc + v.size) 0

theorem sizeSum_acc (l : List ZipEntry) :
    ∀ acc : Int, l.foldl (fun a v => a + v.size) acc = acc + sizeSum l := by
  induction l with
  | nil =>
    intro acc
    rw [show sizeSum [] = 0 from rfl]
    show acc = acc + 0
    omega
  | cons v ws ih =>
    intro acc
    show ws.foldl _ (acc + v.size) = acc + sizeSum (v :: ws)
    rw [ih (acc + v.size),
      show sizeSum (v :: ws) = 0 + v.size + sizeSum ws from ih (0 + v.size)]
    omega

theorem sizeSum_cons (v : ZipEntry) (rest : List ZipEntry) :
    sizeSum (v :: rest) = v.size + sizeSum rest := by
  rw [show sizeSum (v :: rest) = 0 + v.size + sizeSum rest from
    sizeSum_acc rest (0 + v.size)]
  omega

theorem readZipLoop_abort (limit xmlLimit : Int) (v : ZipEntry)
    (rest : List ZipEntry) (fileList : List (String × String))
    (worksheets unzipSize : Int) (h : unzipSize + v.size > limit) :
    readZipLoop limit xmlLimit (v :: rest) fileList worksheets unzipSize
      = (fileList, worksheets, some (.unzipSizeLimitExceeded limit)) := by
  rw [readZipLoop]
  simp only []
  rw [if_pos h]

theorem readZipLoop_no_error (limit xmlLimit : Int) :
    ∀ (entries : List ZipEntry) (fileList : List (String × String))
      (worksheets unzipSize : Int),
      (∀ n : Nat, unzipSize + sizeSum (entries.take n) ≤ limit) →
      (readZipLoop limit xmlLimit entries fileList worksheets unzipSize).2.2
        = none := by
  intro entries
  induction entries with
  | nil =>
    intro fl ws acc h
    rfl
  | cons v rest ih =>
    intro fl ws acc h
    have hv : sizeSum [v] = 0 + v.size := rfl
    have h1 : acc + sizeSum [v] ≤ limit := h 1
    have hnext : ∀ n : Nat, acc + v.size + sizeSum (rest.take n) ≤ limit := by
      intro n
      have hh := h (n + 1)
      rw [List.take_succ_cons, sizeSum_cons] at hh
      omega
    rw [readZipLoop]
    simp only []
    rw [if_neg (by omega)]
    split
    · exact ih _ _ _ hnext
    · split
      · split
        · exact ih _ _ _ hnext
        · exact ih _ _ _ hnext
      · exact ih _ _ _ hnext

/-- **C9**: the zip-extraction loop keeps a running total of entry sizes
and aborts with `UnzipSizeLimitExceeded` at the first entry whose size
pushes the total past the configured limit, without examining the
remaining entries; a listing all of whose running prefix totals stay
within the limit extracts with no error; and whenever extraction reports
an error, `OpenReader` propagates it and returns no workbook value at
all. -/
theorem C9_unzip_limit_abort :
    (∀ (limit xmlLimit : Int) (v : ZipEntry) (rest : List ZipEntry)
        (fileList : List (String × String)) (worksheets unzipSize : Int),
      unzipSize + v.size > limit →
      readZipLoop limit xmlLimit (v :: rest) fileList worksheets unzipSize
        = (fileList, worksheets, some (.unzipSizeLimitExceeded limit))) ∧
    (∀ (limit xmlLimit : Int) (entries : List ZipEntry),
      (∀ n : Nat, sizeSum (entries.take n) ≤ limit) →
      (ReadZipReader entries limit xmlLimit).2.2 = none) ∧
    (∀ (entries : List ZipEntry) (opts : List OptionsM) (o : OptionsM) (e : Err),
      resolveOptionsM opts = .ok o →
      (ReadZipReader entries o.unzipSizeLimit o.unzipXMLSizeLimit).2.2 = some e →
      openReaderM entries opts = .error e) := by
  refine ⟨readZipLoop_abort, ?_, ?_⟩
  · intro limit xmlLimit entries h
    rw [ReadZipReader]
    exact readZipLoop_no_error limit xmlLimit entries [] 0 0
      (fun n => by have := h n; omega)
  · intro entries opts o e hres hzip
    rw [openReaderM, hres]
    simp only []
    rcases hz : ReadZipReader entries o.unzipSizeLimit o.unzipXMLSizeLimit
      with ⟨fl, sc, oe⟩
    rw [hz] at hzip
    have hoe : oe = some e := hzip
    rw [hoe]

theorem C9_unzip_limit_abort_witness :
    resolveOptionsM [⟨"", 5, 1⟩] = .ok ⟨"", 5, 1⟩ ∧
    (ReadZipReader [⟨"a.xml", 10, false, ""⟩] 5 1).2.2
      = some (.unzipSizeLimitExceeded 5) ∧
    openReaderM [⟨"a.xml", 10, false, ""⟩] [⟨"", 5, 1⟩]
      = .error (.unzipSizeLimitExceeded 5) :=
  ⟨by decide, by decide,
   C9_unzip_limit_abort.2.2 [⟨"a.xml", 10, false, ""⟩] [⟨"", 5, 1⟩]
     ⟨"", 5, 1⟩ (.unzipSizeLimitExceeded 5) (by decide) (by decide)⟩
